import Mathlib


/-!
Verification development for the Minimalisp garbage-collector backends
(`mark_sweep.c`, `copying.c`, `generational.c`).

The C sources are shallowly embedded: heap addresses are natural numbers,
object headers are records, the free list is a list of blocks kept in
address order, and each backend entry point is a Lean function translated
from the corresponding C function.  Sizes and addresses stay well below
2^64 in every modelled configuration, so they are plain naturals.

Struct sizes are those of the 64-bit target the collector is written for:
`sizeof(GcHeader) = sizeof(OldHeader) = 56`, `sizeof(NurseryHeader) = 32`,
`sizeof(CopyHeader) = 32`, `sizeof(FreeHeader) = 16`.
-/

deriving instance DecidableEq for Except


namespace Minimalisp


/-- `ALIGN` / `align_size`: round a size up to pointer alignment
(`(size + 7) & ~7`, written here as `(size + 7) / 8 * 8`). -/
def align_size (n : Nat) : Nat := (n + 7) / 8 * 8


/-- `MIN_BLOCK_SIZE = sizeof(FreeHeader)`. -/
def MIN_BLOCK_SIZE : Nat := 16


/-- `sizeof(GcHeader)` in `mark_sweep.c` (prev, next, size, block_size,
marked, trace, tag, padded to 8 bytes). -/
def gcHeaderSize : Nat := 56


/-- `sizeof(OldHeader)` in `generational.c` (same layout as `GcHeader`). -/
def oldHeaderSize : Nat := 56


/-- `sizeof(NurseryHeader)` in `generational.c` (size, trace, forward,
age, tag, padded to 8 bytes). -/
def nurseryHeaderSize : Nat := 32


/-- `sizeof(CopyHeader)` in `copying.c` (size, trace, forward, tag,
padded to 8 bytes). -/
def copyHeaderSize : Nat := 32


/-- `PROMOTE_AGE` in `generational.c`. -/
def PROMOTE_AGE : Nat := 2


/-- A node of the address-ordered free list (`FreeHeader`): `addr` is the
block's start address and `size` the whole block's size in bytes,
header included. -/
structure FreeBlock where
  addr : Nat
  size : Nat
deriving DecidableEq, Repr


/-- `ms_heap_alloc` / `old_heap_alloc` walk (the two C functions are
token-identical).  First-fit over the free list: a block of size at least
`needed + MIN_BLOCK_SIZE` is split, keeping the head `needed` bytes for
the allocation and relinking the remainder; a smaller fitting block is
handed out whole.  Returns the granted block (address and actual size,
what the C code reads back as `block->size`) and the new free list. -/
def heap_alloc_go (needed : Nat) : List FreeBlock → Option FreeBlock × List FreeBlock
  | [] => (none, [])
  | c :: rest =>
    if needed ≤ c.size then
      if needed + MIN_BLOCK_SIZE ≤ c.size then
        (some ⟨c.addr, needed⟩, ⟨c.addr + needed, c.size - needed⟩ :: rest)
      else
        (some c, rest)
    else
      let r := heap_alloc_go needed rest
      (r.1, c :: r.2)


/-- `ms_heap_alloc(size)` / `old_heap_alloc(size)`: clamp the request to
`max (ALIGN size) MIN_BLOCK_SIZE` and run first-fit. -/
def ms_heap_alloc (fl : List FreeBlock) (size : Nat) : Option FreeBlock × List FreeBlock :=
  heap_alloc_go (max (align_size size) MIN_BLOCK_SIZE) fl


/-- The "coalesce with next" step of `ms_heap_free` / `old_heap_free`:
the freed block `b` has been linked in front of `after`; if it is
contiguous with the first block of `after` the two merge. -/
def coalesce_next (b : FreeBlock) : List FreeBlock → List FreeBlock
  | [] => [b]
  | c :: cs => if b.addr + b.size = c.addr then ⟨b.addr, b.size + c.size⟩ :: cs else b :: c :: cs


/-- The insertion point of `ms_heap_free` once the scan has stopped with
`prev = c`: link `b` between `c` and `after`, coalesce `b` with the head
of `after` when contiguous, then coalesce `c` with the (possibly merged)
block when contiguous. -/
def merge_prev (c b : FreeBlock) (after : List FreeBlock) : List FreeBlock :=
  match coalesce_next b after with
  | [] => [c]
  | b' :: after' =>
    if c.addr + c.size = b.addr then ⟨c.addr, c.size + b'.size⟩ :: after' else c :: b' :: after'


/-- `ms_heap_free(ptr, size)` / `old_heap_free(ptr, size)` (the two C
functions are token-identical): insert the block in address order and
coalesce with both contiguous neighbours. -/
def ms_heap_free : List FreeBlock → FreeBlock → List FreeBlock
  | [], b => [b]
  | [c], b => if c.addr < b.addr then merge_prev c b [] else coalesce_next b [c]
  | c :: d :: rest, b =>
    if c.addr < b.addr then
      if d.addr < b.addr then c :: ms_heap_free (d :: rest) b
      else merge_prev c b (d :: rest)
    else coalesce_next b (c :: d :: rest)


/-- `old_heap_free` in `generational.c` is token-for-token the same
function as `ms_heap_free` in `mark_sweep.c`. -/
def old_heap_free : List FreeBlock → FreeBlock → List FreeBlock := ms_heap_free


/-- The free-list invariant the spec calls "no two adjacent free blocks":
the list is in strictly increasing address order and consecutive blocks
are separated by at least one byte of non-free memory. -/
def Separated (fl : List FreeBlock) : Prop :=
  fl.Chain' fun x y => x.addr + x.size < y.addr


/-- Executable check for `Separated`. -/
def separatedB : List FreeBlock → Bool
  | [] => true
  | [_] => true
  | x :: y :: rest => decide (x.addr + x.size < y.addr) && separatedB (y :: rest)


/-- All block sizes are positive (every free block holds at least its
`FreeHeader`). -/
def PosSizes (fl : List FreeBlock) : Prop := ∀ x ∈ fl, 0 < x.size


instance : DecidablePred PosSizes := fun fl =>
  inferInstanceAs (Decidable (∀ x ∈ fl, 0 < x.size))


/-- A block about to be freed occupies memory disjoint from every block
currently on the free list. -/
def DisjointFrom (fl : List FreeBlock) (b : FreeBlock) : Prop :=
  ∀ x ∈ fl, x.addr + x.size ≤ b.addr ∨ b.addr + b.size ≤ x.addr


instance : ∀ fl b, Decidable (DisjointFrom fl b) := fun fl b =>
  inferInstanceAs (Decidable (∀ x ∈ fl, x.addr + x.size ≤ b.addr ∨ b.addr + b.size ≤ x.addr))


/-!
Tracing.  `ms_mark_ptr` (recursive marking through trace callbacks), the
Cheney scan of `copy_collect`, and `old_mark` of the generational major
collection all traverse the object graph from the root values: each visit
of a not-yet-visited managed object marks it (mark bit, forwarding
pointer, or copy) and schedules its children.  The recursion of
`ms_mark_ptr`/`old_mark` is a depth-first traversal (children are handled
before the rest of the pending work) and the Cheney scan is breadth-first
(evacuated children are appended at the to-space end); `trace_work` below
renders both with an explicit worklist, the only difference being where
fresh work is pushed.  Skipped pointers — null, outside the heap, or
already visited — do no work in the C code, so the fuel of `trace_work`
counts visits only; `g.ids.card` visits always suffice.
-/

/-- An object graph as the tracer sees it: `ids` holds the payload
addresses of the managed objects and `children p` lists the managed
pointers that object `p`'s trace callback hands to `mark-pointer`
(null slots, which `mark-pointer` maps to null, are omitted). -/
structure TraceGraph where
  ids : Finset Nat
  children : Nat → List Nat


/-- Depth-first scheduling: the recursion of `ms_mark_ptr` / `old_mark`
processes an object's children before the remaining pending work. -/
def depth_push (cs ws : List Nat) : List Nat := cs ++ ws


/-- Breadth-first scheduling: the Cheney scan of `copy_collect` and
`minor_collect` appends evacuated children at the to-space end. -/
def queue_push (cs ws : List Nat) : List Nat := ws ++ cs


/-- First worklist entry that is a not-yet-visited managed object,
together with the rest of the worklist; pointers outside the heap
(header lookup fails) and already-visited objects are skipped, exactly
the no-work branches of the C tracing code. -/
def next_visit (g : TraceGraph) (m : Finset Nat) : List Nat → Option (Nat × List Nat)
  | [] => none
  | p :: ws => if p ∈ g.ids ∧ p ∉ m then some (p, ws) else next_visit g m ws


/-- The tracing loop: visit the next unvisited managed object, record it,
schedule its children with `push`, repeat.  Fuel bounds the number of
visits; since every visit marks a fresh node, `g.ids.card` fuel always
suffices and the result is fuel-independent beyond that bound. -/
def trace_work (g : TraceGraph) (push : List Nat → List Nat → List Nat) :
    Nat → List Nat → Finset Nat → Finset Nat
  | 0, _, m => m
  | fuel + 1, ws, m =>
    match next_visit g m ws with
    | none => m
    | some (p, ws') => trace_work g push fuel (push (g.children p) ws') (insert p m)


/-!
Mutator-visible memory and pointer cells.  Payload bytes are a log of
byte writes; root slots and remembered-set slots are pointer cells
outside the traced payloads, held in an association list.
-/

/-- Heap byte memory as a write log, newest first.  `read_byte` yields
`none` for bytes the runtime never wrote, matching the indeterminate
contents of freshly `malloc`ed memory. -/
abbrev ByteMem := List (Nat × Nat)


def write_byte (m : ByteMem) (a v : Nat) : ByteMem := (a, v) :: m


def read_byte (m : ByteMem) (a : Nat) : Option Nat :=
  (m.find? fun e => e.1 == a).map Prod.snd


/-- `memset(p, 0, n)`: store `n` zero bytes starting at `p`. -/
def memset_zero (m : ByteMem) (p : Nat) : Nat → ByteMem
  | 0 => m
  | n + 1 => write_byte (memset_zero m p n) (p + n) 0


/-- Pointer cells (root slots, remembered slots): slot address to stored
payload pointer, newest write first. -/
abbrev SlotMap := List (Nat × Nat)


def lookup_slot (sv : SlotMap) (a : Nat) : Option Nat :=
  (sv.find? fun e => e.1 == a).map Prod.snd


/-- A store through a pointer cell shadows the previous binding. -/
def set_slot (sv : SlotMap) (a v : Nat) : SlotMap := (a, v) :: sv


/-- The tracer's view of a backend's object table: `ids` are the payload
addresses, children come from the per-object trace callback. -/
def obj_graph {σ : Type} (objs : List (Nat × σ)) (ch : σ → List Nat) : TraceGraph :=
  { ids := (objs.map Prod.fst).toFinset,
    children := fun p =>
      match objs.find? (fun o => o.1 == p) with
      | some o => ch o.2
      | none => [] }


/-!
Mark-sweep backend (`mark_sweep.c`).  Objects are identified by their
payload address; `gc_objects` is the doubly-linked object list, newest
first.  Marking is the depth-first traversal of `ms_mark_ptr` through
the trace callbacks, rendered by `trace_work` with `depth_push`; the
sweep returns every unmarked block to the free list through
`ms_heap_free` and updates the statistics, as in `gc_sweep`.
`gc_bytes_allocated` and `internal_stats.allocated_bytes` receive the
same increments in the C code and are one field here.  Floating-point
statistics (pause times, survival rate) are not modelled.
-/

/-- An allocated object's header (`GcHeader`): payload size, the block
size handed out by the free list, and the managed pointers its trace
callback visits (`[]` both for a null trace and for a childless one,
which mark identically). -/
structure GcObject where
  size : Nat
  block_size : Nat
  children : List Nat
deriving DecidableEq, Repr


structure MsState where
  objects : List (Nat × GcObject)
  roots : List Nat
  slot_mem : SlotMap
  free_list : List FreeBlock
  heap_size : Nat
  bytes_allocated : Nat
  threshold : Nat
  freed_bytes : Nat
  current_bytes : Nat
  collections : Nat
  mem : ByteMem
deriving DecidableEq, Repr


/-- Root values scanned by `gc_mark_roots`: each registered slot's stored
pointer, nulls skipped. -/
def ms_root_worklist (s : MsState) : List Nat :=
  s.roots.filterMap (lookup_slot s.slot_mem)


/-- The traced closure of a worklist over an object table: `trace_work`
with enough fuel for every possible visit. -/
def trace_closure {σ : Type} (objs : List (Nat × σ)) (ch : σ → List Nat)
    (push : List Nat → List Nat → List Nat) (ws : List Nat) : Finset Nat :=
  let g := obj_graph objs ch
  trace_work g push (g.ids.card + 1) ws ∅


/-- The mark phase: `gc_mark_roots` runs `ms_mark_ptr` on every root
value; the recursion through trace callbacks is `trace_work` with
depth-first scheduling. -/
def ms_mark_roots (s : MsState) : Finset Nat :=
  trace_closure s.objects (fun o => o.children) depth_push (ms_root_worklist s)


/-- `ms_collect` as entered from a quiescent mutator (the `gc_collecting`
reentry guard is clear): mark from the roots, then sweep — unmarked
objects leave the object list, their sizes move to `freed_bytes` and out
of `current_bytes`, and their blocks return to the free list with
coalescing. -/
def ms_collect (s : MsState) : MsState :=
  let M := ms_mark_roots s
  let dead := s.objects.filter fun o => decide (o.1 ∉ M)
  let deadBytes := (dead.map fun o => o.2.size).sum
  { s with
    objects := s.objects.filter fun o => decide (o.1 ∈ M)
    freed_bytes := s.freed_bytes + deadBytes
    current_bytes := s.current_bytes - deadBytes
    collections := s.collections + 1
    free_list := dead.foldl
      (fun fl o => ms_heap_free fl ⟨o.1 - gcHeaderSize, o.2.block_size⟩) s.free_list }


/-- Bookkeeping after `ms_heap_alloc` found a block: link the object,
zero the payload, update the counters, then the opportunistic-collection
check of `ms_allocate` — when `gc_bytes_allocated` exceeds the threshold,
collect and set the threshold to `gc_bytes_allocated * 1.5` clamped to
the heap size (`(size_t)(x * 1.5)` is exact for every heap-sized `x`, so
it is `3 * x / 2` here). -/
def ms_finish_alloc (s : MsState) (blk : FreeBlock) (fl' : List FreeBlock) (n : Nat) :
    Nat × MsState :=
  let payload := blk.addr + gcHeaderSize
  let s1 : MsState :=
    { s with
      free_list := fl'
      objects := (payload, ⟨n, blk.size, []⟩) :: s.objects
      bytes_allocated := s.bytes_allocated + n
      current_bytes := s.current_bytes + n
      mem := memset_zero s.mem payload n }
  if s1.threshold < s1.bytes_allocated then
    let s2 := ms_collect s1
    (payload, { s2 with threshold := min (3 * s2.bytes_allocated / 2) s2.heap_size })
  else
    (payload, s1)


/-- `ms_allocate(size)`: first-fit from the free list; on exhaustion
collect once and retry; if that also fails, report OutOfMemory and
`exit(1)` — rendered as `Except.error`. -/
def ms_allocate (s : MsState) (n : Nat) : Except Unit (Nat × MsState) :=
  let total := gcHeaderSize + n
  match ms_heap_alloc s.free_list total with
  | (some blk, fl') => .ok (ms_finish_alloc s blk fl' n)
  | (none, _) =>
    let s1 := ms_collect s
    match ms_heap_alloc s1.free_list total with
    | (some blk, fl') => .ok (ms_finish_alloc s1 blk fl' n)
    | (none, _) => .error ()


/-- `ms_add_root`: the hash-table lookup makes registration idempotent;
a new slot is appended to the dense root array. -/
def ms_add_root (s : MsState) (slot : Nat) : MsState :=
  if slot ∈ s.roots then s else { s with roots := s.roots ++ [slot] }


/-- The value computed by `ms_mark_ptr`: null for null, and null when
`gc_find_header` rejects the pointer; a live payload pointer comes back
unchanged (membership in the object list stands in for the C heap-bounds
test, which agrees with it on every pointer a sound mutator can hold).
Its marking side effect is the traversal modelled in `ms_mark_roots`. -/
def ms_mark_ptr (s : MsState) (p : Option Nat) : Option Nat :=
  match p with
  | none => none
  | some a => if (s.objects.find? fun o => o.1 == a).isSome then some a else none


def ms_set_threshold (s : MsState) (bytes : Nat) : MsState :=
  { s with threshold := if bytes < 1024 then 1024 else bytes }


def ms_get_threshold (s : MsState) : Nat := s.threshold


/-!
Copying backend (`copying.c`).  Evacuation renames addresses but
preserves each object's identity, size and reference structure; the
statistics the claims mention depend only on those, so live objects keep
their identifier across a collection, and the root-slot write-back
(`*slot = copy_copy_ptr(*slot)`) stores the same identifier.  The Cheney
scan is `trace_work` with queue scheduling: evacuated children are
appended at the to-space end.
-/

structure CopyObj where
  size : Nat
  children : List Nat
deriving DecidableEq, Repr


structure CopyState where
  objects : List (Nat × CopyObj)
  roots : List Nat
  slot_mem : SlotMap
  used : Nat
  cap : Nat
  allocated_bytes : Nat
  freed_bytes : Nat
  current_bytes : Nat
  collections : Nat
  objects_copied : Nat
  objects_scanned : Nat
  fresh : Nat
  mem : ByteMem
deriving DecidableEq, Repr


/-- `copy_collect` as entered from a quiescent mutator (the
`copying_collecting` reentry guard is clear): swap spaces, evacuate the
root values, Cheney-scan the to-space.  The survivors are exactly the traced closure of the
roots; `current_bytes` becomes `alloc_ptr - active_space`, the sum of
header-plus-payload over the survivors, and `freed_bytes` grows by the
drop in `current_bytes` when there is one. -/
def copy_mark_roots (s : CopyState) : Finset Nat :=
  trace_closure s.objects (fun o => o.children) queue_push
    (s.roots.filterMap (lookup_slot s.slot_mem))


def copy_collect (s : CopyState) : CopyState :=
  let M := copy_mark_roots s
  let live := s.objects.filter fun o => decide (o.1 ∈ M)
  let after := (live.map fun o => copyHeaderSize + o.2.size).sum
  { s with
    objects := live
    used := after
    current_bytes := after
    freed_bytes := if after < s.current_bytes then
        s.freed_bytes + (s.current_bytes - after)
      else s.freed_bytes
    collections := s.collections + 1
    objects_copied := s.objects_copied + live.length
    objects_scanned := s.objects_scanned + live.length }


/-- The bump allocation at the end of `copy_allocate`: place a header,
zero `align_size n` payload bytes, update the counters. -/
def copy_bump_alloc (s : CopyState) (n : Nat) : Nat × CopyState :=
  let payload := align_size n
  let total := copyHeaderSize + payload
  let p := s.fresh + copyHeaderSize
  (p, { s with
        objects := s.objects ++ [(p, ⟨payload, []⟩)]
        used := s.used + total
        fresh := s.fresh + total
        allocated_bytes := s.allocated_bytes + n
        current_bytes := s.used + total
        mem := memset_zero s.mem p payload })


/-- `copy_allocate(size)`: bump-allocate in the active space; on
exhaustion collect once and retry; if that also fails, report
OutOfMemory and `exit(1)`. -/
def copy_allocate (s : CopyState) (n : Nat) : Except Unit (Nat × CopyState) :=
  let total := copyHeaderSize + align_size n
  if s.cap < s.used + total then
    let s1 := copy_collect s
    if s1.cap < s1.used + total then .error ()
    else .ok (copy_bump_alloc s1 n)
  else .ok (copy_bump_alloc s n)


/-- `copy_add_root`: no duplicate check — the slot is appended
unconditionally. -/
def copy_add_root (s : CopyState) (slot : Nat) : CopyState :=
  { s with roots := s.roots ++ [slot] }


/-- From-space header during a copying collection (`CopyHeader`):
payload size, traced children, forwarding pointer. -/
structure CopyHdr where
  size : Nat
  children : List Nat
  forward : Option Nat
deriving DecidableEq, Repr


/-- The copying collector's evacuation state: from-space headers,
to-space contents and bump pointer. -/
structure CopyCtx where
  from_objs : List (Nat × CopyHdr)
  to_objs : List (Nat × CopyHdr)
  to_used : Nat
  cap : Nat
  fresh : Nat
  copied : Nat
deriving DecidableEq, Repr


def set_forward_copy (objs : List (Nat × CopyHdr)) (a f : Nat) : List (Nat × CopyHdr) :=
  objs.map fun e => if e.1 = a then (e.1, { e.2 with forward := some f }) else e


/-- `copy_copy_ptr`: null maps to null; a pointer outside from-space is
returned unchanged; a forwarded object yields its forwarding pointer;
otherwise the object is copied to the to-space bump pointer (OutOfMemory,
`exit(1)`, when the to-space cannot hold it) and forwarded.  In-space
tests are by header lookup here; the C code's address-range test with its
strict lower bound is the source ambiguity the spec already notes. -/
def copy_copy_ptr (ctx : CopyCtx) (p : Option Nat) : Except Unit (Option Nat × CopyCtx) :=
  match p with
  | none => .ok (none, ctx)
  | some a =>
    match ctx.from_objs.find? (fun o => o.1 == a) with
    | none => .ok (some a, ctx)
    | some o =>
      match o.2.forward with
      | some f => .ok (some f, ctx)
      | none =>
        let total := copyHeaderSize + o.2.size
        if ctx.cap < ctx.to_used + total then .error ()
        else
          let f := ctx.fresh + copyHeaderSize
          .ok (some f,
            { ctx with
              to_objs := ctx.to_objs ++ [(f, ⟨o.2.size, o.2.children, none⟩)]
              to_used := ctx.to_used + total
              fresh := ctx.fresh + total
              from_objs := set_forward_copy ctx.from_objs a f
              copied := ctx.copied + 1 })


/-- `copy_mark_ptr`: identity outside a collection, evacuation inside
one. -/
def copy_mark_ptr (collecting : Bool) (ctx : CopyCtx) (p : Option Nat) :
    Except Unit (Option Nat × CopyCtx) :=
  if collecting then copy_copy_ptr ctx p else .ok (p, ctx)


/-!
Generational backend (`generational.c`).  Nursery and tenured objects are
identified by their payload addresses, drawn from a monotone address
source `fresh` (the C code reuses semispace address ranges, but no
address is ever live under two objects at once, so monotone addresses are
a faithful renaming).  A trace callback is `Option (List Nat)`: `none`
when no callback is installed, otherwise the list of non-null managed
pointers it passes to `gen_mark_ptr` (null slots round-trip to null and
are omitted).  The `pointer_in_space` address-range tests appear as
header lookups, which agree with them on every payload pointer a sound
mutator can hold.  Old-generation payload bytes, tags, and the old heap's
free list are kept abstract here — `old_allocate` is modelled as always
finding room (its free list is the `ms_heap_alloc`/`old_heap_free`
model above) — and the aliasing between remembered-set slots and the
payload words of their owning tenured objects is not modelled; none of
the stated claims depends on it.  Floating-point statistics (pause
times, survival rate) are not modelled.
-/

/-- `NurseryHeader`: payload size, trace callback, forwarding pointer,
age. -/
structure NurseryObj where
  size : Nat
  trace : Option (List Nat)
  forward : Option Nat
  age : Nat
deriving DecidableEq, Repr


/-- `OldHeader` as far as tracing is concerned: payload size and trace
callback (the mark bit lives only inside a major collection and the
linked-list pointers are the list structure itself). -/
structure OldObj where
  size : Nat
  trace : Option (List Nat)
deriving DecidableEq, Repr


structure GenState where
  nursery : List (Nat × NurseryObj)
  nursery_used : Nat
  nursery_cap : Nat
  old_objects : List (Nat × OldObj)
  old_bytes : Nat
  old_threshold : Nat
  roots : List Nat
  remembered : List Nat
  slot_mem : SlotMap
  collections : Nat
  allocated_bytes : Nat
  freed_bytes : Nat
  current_bytes : Nat
  objects_copied : Nat
  objects_promoted : Nat
  objects_scanned : Nat
  fresh : Nat
  mem : ByteMem
deriving DecidableEq, Repr


/-- The state a minor collection works on: from-space headers (with
their forwarding pointers), the to-space being filled, the old
generation receiving promotions, and the promotion work stack. -/
structure MinorCtx where
  from_objs : List (Nat × NurseryObj)
  to_objs : List (Nat × NurseryObj)
  to_used : Nat
  cap : Nat
  old_objects : List (Nat × OldObj)
  old_bytes : Nat
  promo_stack : List Nat
  copied : Nat
  promoted : Nat
  tracing_promoted : Bool
  fresh : Nat
deriving DecidableEq, Repr


def set_forward_nursery (objs : List (Nat × NurseryObj)) (a f : Nat) :
    List (Nat × NurseryObj) :=
  objs.map fun e => if e.1 = a then (e.1, { e.2 with forward := some f }) else e


/-- `promote_object`: allocate in the tenured generation (`old_allocate`
prepends to the `old_objects` list and adds the payload size to
`old_bytes_allocated`), copy the payload, set the forwarding pointer,
bump `objects_promoted`, and — only when a trace callback is installed —
push the tenured copy on the promotion stack for deferred deep-promotion
tracing. -/
def promote_object (ctx : MinorCtx) (a : Nat) (hdr : NurseryObj) : Option Nat × MinorCtx :=
  let f := ctx.fresh + oldHeaderSize
  (some f,
    { ctx with
      old_objects := (f, ⟨hdr.size, hdr.trace⟩) :: ctx.old_objects
      old_bytes := ctx.old_bytes + hdr.size
      from_objs := set_forward_nursery ctx.from_objs a f
      promoted := ctx.promoted + 1
      promo_stack := if hdr.trace.isSome then f :: ctx.promo_stack else ctx.promo_stack
      fresh := ctx.fresh + oldHeaderSize + hdr.size })


/-- `copy_young_object`: null maps to null; a pointer outside the
nursery from-space is returned unchanged; a forwarded object yields its
forwarding pointer.  Otherwise promote when `tracing_promoted` is set or
`age + 1 ≥ PROMOTE_AGE`, promote when the nursery to-space cannot hold
the object, and in the remaining case copy into the to-space with the
age incremented, set forwarding and bump `objects_copied`. -/
def copy_young_object (ctx : MinorCtx) (p : Option Nat) : Option Nat × MinorCtx :=
  match p with
  | none => (none, ctx)
  | some a =>
    match ctx.from_objs.find? (fun o => o.1 == a) with
    | none => (some a, ctx)
    | some o =>
      match o.2.forward with
      | some f => (some f, ctx)
      | none =>
        if ctx.tracing_promoted ∨ PROMOTE_AGE ≤ o.2.age + 1 then
          promote_object ctx a o.2
        else
          let total := nurseryHeaderSize + o.2.size
          if ctx.cap < ctx.to_used + total then
            promote_object ctx a o.2
          else
            let f := ctx.fresh + nurseryHeaderSize
            (some f,
              { ctx with
                to_objs := ctx.to_objs ++
                  [(f, ⟨o.2.size, o.2.trace, none, o.2.age + 1⟩)]
                to_used := ctx.to_used + total
                from_objs := set_forward_nursery ctx.from_objs a f
                copied := ctx.copied + 1
                fresh := ctx.fresh + nurseryHeaderSize + o.2.size })


/-- Evacuate the children a trace callback enumerates, writing each
result back into its slot: the callback's contract. -/
def evac_children (ctx : MinorCtx) (cs : List Nat) : List Nat × MinorCtx :=
  match cs with
  | [] => ([], ctx)
  | c :: rest =>
    match copy_young_object ctx (some c) with
    | (none, ctx') =>
      let r := evac_children ctx' rest
      (r.1, r.2)
    | (some c', ctx') =>
      let r := evac_children ctx' rest
      (c' :: r.1, r.2)


/-- One step of the nursery part of the `minor_collect` scan loop:
trace the `i`-th to-space survivor with `tracing_promoted` cleared,
writing evacuated children back into its payload. -/
def scan_step (ctx : MinorCtx) (i : Nat) : MinorCtx :=
  let ctx := { ctx with tracing_promoted := false }
  match ctx.to_objs[i]? with
  | none => ctx
  | some (a, o) =>
    match o.trace with
    | none => ctx
    | some cs =>
      let r := evac_children ctx cs
      { r.2 with to_objs := r.2.to_objs.set i (a, { o with trace := some r.1 }) }


/-- One step of the promotion-stack part of the scan loop: trace a
promoted (now tenured) object with `tracing_promoted` set, so its
children are themselves promoted. -/
def promo_step (ctx : MinorCtx) (a : Nat) : MinorCtx :=
  let ctx := { ctx with tracing_promoted := true }
  match ctx.old_objects.find? (fun o => o.1 == a) with
  | none => ctx
  | some o =>
    match o.2.trace with
    | none => ctx
    | some cs =>
      let r := evac_children ctx cs
      { r.2 with
        old_objects := r.2.old_objects.map
          fun e => if e.1 = a then (e.1, ⟨e.2.size, some r.1⟩) else e }


/-- The interleaved scan loop of `minor_collect`: drain the nursery scan
pointer, then the promotion stack, until no work remains.  Promoted
objects promote their children, so the to-space never grows while the
promotion stack drains; each nursery survivor is scanned once and each
promoted object popped once, so `2 * |from-space| + 2` iterations always
finish the loop. -/
def minor_loop : Nat → Nat → MinorCtx → MinorCtx
  | 0, _, ctx => ctx
  | f + 1, i, ctx =>
    if i < ctx.to_objs.length then
      minor_loop f (i + 1) (scan_step ctx i)
    else
      match ctx.promo_stack with
      | [] => ctx
      | a :: rest => minor_loop f i (promo_step { ctx with promo_stack := rest } a)


/-- `trace_roots_for_minor` over one slot list: for each slot holding a
non-null pointer, evacuate it and write the result back. -/
def evac_slots (ctx : MinorCtx) (slots : List Nat) (sv : SlotMap) : SlotMap × MinorCtx :=
  match slots with
  | [] => (sv, ctx)
  | a :: rest =>
    match lookup_slot sv a with
    | none => evac_slots ctx rest sv
    | some v =>
      match copy_young_object ctx (some v) with
      | (none, ctx') => evac_slots ctx' rest sv
      | (some v', ctx') => evac_slots ctx' rest (set_slot sv a v')


/-- `minor_collect` as entered from a quiescent mutator (the
`minor_collecting` reentry guard is clear): swap the nursery semispaces,
evacuate the values
stored in registered roots and remembered slots (writing forwarded
pointers back), run the interleaved scan/promotion loop, update the
statistics, and drop remembered entries whose slot no longer holds a
pointer into the new nursery.  After the loop the C code still calls
`scan_nursery()` — by then every child is forwarded, so its re-tracing
changes nothing, but it adds the survivor count to `objects_scanned`,
and the statistics walk that follows adds the same count once more:
`objects_scanned` grows by twice the survivor count per minor
collection. -/
def minor_collect (s : GenState) : GenState :=
  let ctx0 : MinorCtx :=
    { from_objs := s.nursery
      to_objs := []
      to_used := 0
      cap := s.nursery_cap
      old_objects := s.old_objects
      old_bytes := s.old_bytes
      promo_stack := []
      copied := s.objects_copied
      promoted := s.objects_promoted
      tracing_promoted := false
      fresh := s.fresh }
  let r1 := evac_slots ctx0 s.roots s.slot_mem
  let r2 := evac_slots r1.2 s.remembered r1.1
  let ctx := minor_loop (2 * s.nursery.length + 2) 0 r2.2
  let sv := r2.1
  let remembered' := s.remembered.filter fun a =>
    match lookup_slot sv a with
    | some v => (ctx.to_objs.find? fun o => o.1 == v).isSome
    | none => false
  { s with
    nursery := ctx.to_objs
    nursery_used := ctx.to_used
    old_objects := ctx.old_objects
    old_bytes := ctx.old_bytes
    roots := s.roots
    remembered := remembered'
    slot_mem := sv
    collections := s.collections + 1
    objects_copied := ctx.copied
    objects_promoted := ctx.promoted
    objects_scanned := s.objects_scanned + 2 * ctx.to_objs.length
    current_bytes := ctx.to_used + ctx.old_bytes
    fresh := ctx.fresh }


/-- `mark_old_roots`: run `gen_mark_ptr` (major mode, i.e. `old_mark`)
over the values of the registered roots and remembered slots; the
depth-first recursion through mark bits and trace callbacks computes the
traced closure within the old generation. -/
def mark_old_roots (s : GenState) : Finset Nat :=
  trace_closure s.old_objects (fun o => o.trace.getD []) depth_push
    (s.roots.filterMap (lookup_slot s.slot_mem) ++
      s.remembered.filterMap (lookup_slot s.slot_mem))


/-- `sweep_old` (with the preceding `mark_old_roots`): unlink every
unmarked tenured object, move its size to `freed_bytes`, return in the C
code its block to the old free list, then set the major threshold to
`old_bytes_allocated * OLD_GROWTH_FACTOR + 1024` (exact in double, so
`2 * live + 1024` here) and refresh `current_bytes`. -/
def sweep_old (s : GenState) : GenState :=
  let M := mark_old_roots s
  let dead := s.old_objects.filter fun o => decide (o.1 ∉ M)
  let deadBytes := (dead.map fun o => o.2.size).sum
  { s with
    old_objects := s.old_objects.filter fun o => decide (o.1 ∈ M)
    old_bytes := s.old_bytes - deadBytes
    freed_bytes := s.freed_bytes + deadBytes
    old_threshold := 2 * (s.old_bytes - deadBytes) + 1024
    current_bytes := s.nursery_used + (s.old_bytes - deadBytes) }


/-- `major_collect`: a minor collection followed by mark-and-sweep over
the tenured generation. -/
def major_collect (s : GenState) : GenState :=
  sweep_old (minor_collect s)


/-- `gen_collect`: a minor collection, then a major one when the tenured
bytes exceed the major threshold. -/
def gen_collect (s : GenState) : GenState :=
  let s1 := minor_collect s
  if s1.old_threshold < s1.old_bytes then major_collect s1 else s1


/-- The nursery bump allocation at the end of `gen_allocate`: place a
header with age 0 and no trace, zero `align_size size` payload bytes,
update the counters. -/
def gen_bump_alloc (s : GenState) (n : Nat) : Nat × GenState :=
  let payload := align_size n
  let total := nurseryHeaderSize + payload
  let p := s.fresh + nurseryHeaderSize
  (p, { s with
        nursery := s.nursery ++ [(p, ⟨payload, none, none, 0⟩)]
        nursery_used := s.nursery_used + total
        fresh := s.fresh + total
        allocated_bytes := s.allocated_bytes + n
        current_bytes := s.nursery_used + total + s.old_bytes
        mem := memset_zero s.mem p payload })


/-- `gen_allocate(size)`: bump-allocate in the nursery; on exhaustion
run a minor collection, retry, then a major collection, retry, and
report OutOfMemory (`exit(1)`) if the request still does not fit. -/
def gen_allocate (s : GenState) (n : Nat) : Except Unit (Nat × GenState) :=
  let total := nurseryHeaderSize + align_size n
  if s.nursery_cap < s.nursery_used + total then
    let s1 := minor_collect s
    if s1.nursery_cap < s1.nursery_used + total then
      let s2 := major_collect s1
      if s2.nursery_cap < s2.nursery_used + total then .error ()
      else .ok (gen_bump_alloc s2 n)
    else .ok (gen_bump_alloc s1 n)
  else .ok (gen_bump_alloc s n)


/-- `add_remembered_slot`: linear duplicate scan, append when new. -/
def add_remembered_slot (s : GenState) (slot : Nat) : GenState :=
  if slot ∈ s.remembered then s else { s with remembered := s.remembered ++ [slot] }


/-- `gen_write_barrier(owner, slot, child)`: the owner is discarded
(`(void)owner`); when slot and child are non-null and the child lies in
the active nursery, the slot joins the remembered set. -/
def gen_write_barrier (s : GenState) (owner slot child : Option Nat) : GenState :=
  match slot, child with
  | some sl, some ch =>
    if (s.nursery.find? fun o => o.1 == ch).isSome then add_remembered_slot s sl else s
  | _, _ => s


/-- `ensure_root_slot` via the root hash table: registration is
idempotent; a new slot is appended to the dense array. -/
def gen_add_root (s : GenState) (slot : Nat) : GenState :=
  if slot ∈ s.roots then s else { s with roots := s.roots ++ [slot] }


/-- `gen_mark_ptr` as a value map: null maps to null; during a minor
collection it evacuates through `copy_young_object`; during a major
collection `old_mark` runs for its marking side effect (modelled inside
`sweep_old`) and the pointer is returned unchanged; outside any
collection it is the identity. -/
def gen_mark_ptr (minor major : Bool) (ctx : MinorCtx) (p : Option Nat) :
    Option Nat × MinorCtx :=
  match p with
  | none => (none, ctx)
  | some a => if minor then copy_young_object ctx (some a) else (some a, ctx)


def gen_set_threshold (s : GenState) (bytes : Nat) : GenState :=
  { s with old_threshold := if bytes < 1024 then 1024 else bytes }


def gen_get_threshold (s : GenState) : Nat := s.old_threshold


/-!
Concrete states used by the witnesses and counterexamples.
-/

/-- A mark-sweep state: the default 4 MiB heap after some short-lived
allocations (1020 bytes allocated, all freed again) with the collection
threshold lowered to its 1024-byte floor through `ms_set_threshold`. -/
def msTriggerState : MsState :=
  { objects := [], roots := [], slot_mem := [], free_list := [⟨0, 4194304⟩],
    heap_size := 4194304, bytes_allocated := 1020, threshold := 1024,
    freed_bytes := 1020, current_bytes := 0, collections := 1, mem := [] }


/-- The state after `ms_allocate msTriggerState 8`, which crosses the
threshold and runs the opportunistic collection. -/
def msTriggerPost : MsState :=
  match ms_allocate msTriggerState 8 with
  | .ok (_, s') => s'
  | .error _ => msTriggerState


/-- `generational_init` with the default 512 KiB nursery. -/
def genInitState : GenState :=
  { nursery := [], nursery_used := 0, nursery_cap := 524288, old_objects := [],
    old_bytes := 0, old_threshold := 1048576, roots := [], remembered := [],
    slot_mem := [], collections := 0, allocated_bytes := 0, freed_bytes := 0,
    current_bytes := 0, objects_copied := 0, objects_promoted := 0,
    objects_scanned := 0, fresh := 0, mem := [] }


/-- Allocate one 8-byte leaf object, register root slot 1000 and store
the payload pointer in it: the generational scenario state. -/
def genRootedState : GenState :=
  match gen_allocate genInitState 8 with
  | .ok (p, s) => { gen_add_root s 1000 with slot_mem := [(1000, p)] }
  | .error _ => genInitState


/-- A generational state with two live nursery objects (payloads 32 and
72) and an empty remembered set. -/
def genBarrierState : GenState :=
  { genInitState with
    nursery := [(32, ⟨8, none, none, 0⟩), (72, ⟨8, none, none, 0⟩)]
    nursery_used := 80
    fresh := 80 }


/-- A minor collection about to evacuate object 32: age 1, no trace
callback, forwarding unset — the next evacuation promotes it. -/
def genPromoCtx : MinorCtx :=
  { from_objs := [(32, ⟨8, none, none, 1⟩)], to_objs := [], to_used := 0,
    cap := 524288, old_objects := [], old_bytes := 0, promo_stack := [],
    copied := 0, promoted := 0, tracing_promoted := false, fresh := 40 }


/-- A minor collection about to evacuate object 32: age 0, childless
trace callback installed — the next evacuation copies it. -/
def genCopyCtx : MinorCtx :=
  { from_objs := [(32, ⟨8, some [], none, 0⟩)], to_objs := [], to_used := 0,
    cap := 524288, old_objects := [], old_bytes := 0, promo_stack := [],
    copied := 0, promoted := 0, tracing_promoted := false, fresh := 40 }


/-- A freshly initialized copying backend (32 MiB semispaces) with root
slot 5 already registered. -/
def copyRootState : CopyState :=
  { objects := [], roots := [5], slot_mem := [], used := 0, cap := 33554432,
    allocated_bytes := 0, freed_bytes := 0, current_bytes := 0, collections := 0,
    objects_copied := 0, objects_scanned := 0, fresh := 0, mem := [] }


/-- A freshly initialized copying backend with no roots. -/
def copyInitState : CopyState :=
  { copyRootState with roots := [] }


/-- A mark-sweep state with root slot 7 registered. -/
def msRootState : MsState :=
  { msTriggerState with roots := [7] }


/-- The free list `[0, 32) ∪ [64, 80)` about to receive back the block
`[32, 64)` sitting between its two nodes. -/
def flWitness : List FreeBlock := [⟨0, 32⟩, ⟨64, 16⟩]

/-!
Proofs.
-/


theorem separatedB_iff : ∀ fl : List FreeBlock, separatedB fl = true ↔ Separated fl
  | [] => by simp [separatedB, Separated]
  | [x] => by simp [separatedB, Separated]
  | x :: y :: rest => by
    rw [show Separated (x :: y :: rest) ↔
        x.addr + x.size < y.addr ∧ Separated (y :: rest) from List.chain'_cons]
    rw [← separatedB_iff (y :: rest)]
    simp [separatedB]


instance : DecidablePred Separated := fun fl =>
  decidable_of_iff _ (separatedB_iff fl)


theorem separated_all {c : FreeBlock} {l : List FreeBlock}
    (h : Separated (c :: l)) : ∀ x ∈ l, c.addr + c.size < x.addr := by
  induction l generalizing c with
  | nil => intro x hx; cases hx
  | cons d t ih =>
    rcases List.chain'_cons.mp h with ⟨hcd, hdt⟩
    intro x hx
    rcases List.mem_cons.mp hx with hx | hx
    · exact hx ▸ hcd
    · have := ih hdt x hx
      omega


theorem coalesce_next_spec (b : FreeBlock) (l : List FreeBlock)
    (hsep : Separated l) (hpos : PosSizes l) (hb : 0 < b.size)
    (hle : ∀ c ∈ l.head?, b.addr + b.size ≤ c.addr) :
    ∃ b' t, coalesce_next b l = b' :: t ∧ b'.addr = b.addr ∧
      Separated (b' :: t) ∧ PosSizes (b' :: t) := by
  cases l with
  | nil =>
    exact ⟨b, [], rfl, rfl, List.chain'_singleton b, by
      intro x hx; rcases List.mem_singleton.mp hx with rfl; exact hb⟩
  | cons c cs =>
    have hbc : b.addr + b.size ≤ c.addr := hle c rfl
    by_cases hmerge : b.addr + b.size = c.addr
    · refine ⟨⟨b.addr, b.size + c.size⟩, cs, by simp [coalesce_next, hmerge], rfl, ?_, ?_⟩
      · refine List.chain'_cons'.mpr ⟨?_, (List.chain'_cons'.mp hsep).2⟩
        intro h hh
        have := (List.chain'_cons'.mp hsep).1 h hh
        simp only at this ⊢
        omega
      · intro x hx
        rcases List.mem_cons.mp hx with rfl | hx
        · have := hpos c (by simp)
          simp only
          omega
        · exact hpos x (List.mem_cons_of_mem _ hx)
    · refine ⟨b, c :: cs, by simp [coalesce_next, hmerge], rfl, ?_, ?_⟩
      · exact List.chain'_cons.mpr ⟨by omega, hsep⟩
      · intro x hx
        rcases List.mem_cons.mp hx with rfl | hx
        · exact hb
        · exact hpos x hx


theorem merge_prev_spec (c b : FreeBlock) (after : List FreeBlock)
    (hsep : Separated after) (hpos : PosSizes after) (hb : 0 < b.size) (hc : 0 < c.size)
    (hcb : c.addr + c.size ≤ b.addr)
    (hle : ∀ d ∈ after.head?, b.addr + b.size ≤ d.addr) :
    ∃ c' t, merge_prev c b after = c' :: t ∧ c'.addr = c.addr ∧
      Separated (c' :: t) ∧ PosSizes (c' :: t) := by
  obtain ⟨b', t, heq, haddr, hsep', hpos'⟩ := coalesce_next_spec b after hsep hpos hb hle
  by_cases hmerge : c.addr + c.size = b.addr
  · refine ⟨⟨c.addr, c.size + b'.size⟩, t, ?_, rfl, ?_, ?_⟩
    · simp [merge_prev, heq, hmerge]
    · refine List.chain'_cons'.mpr ⟨?_, (List.chain'_cons'.mp hsep').2⟩
      intro h hh
      have := (List.chain'_cons'.mp hsep').1 h hh
      simp only at this ⊢
      omega
    · intro x hx
      rcases List.mem_cons.mp hx with rfl | hx
      · have := hpos' b' (by simp)
        simp only
        omega
      · exact hpos' x (List.mem_cons_of_mem _ hx)
  · refine ⟨c, b' :: t, ?_, rfl, ?_, ?_⟩
    · simp [merge_prev, heq, hmerge]
    · exact List.chain'_cons.mpr ⟨by omega, hsep'⟩
    · intro x hx
      rcases List.mem_cons.mp hx with rfl | hx
      · exact hc
      · exact hpos' x hx


theorem ms_heap_free_spec : ∀ (fl : List FreeBlock) (b : FreeBlock),
    Separated fl → PosSizes fl → 0 < b.size → DisjointFrom fl b →
    ∃ h t, ms_heap_free fl b = h :: t ∧ Separated (h :: t) ∧ PosSizes (h :: t) ∧
      h.addr = (match fl with
        | [] => b.addr
        | c :: _ => if c.addr < b.addr then c.addr else b.addr)
  | [], b, _, _, hb, _ =>
    ⟨b, [], rfl, List.chain'_singleton b, by
      intro x hx; rcases List.mem_singleton.mp hx with rfl; exact hb, rfl⟩
  | [c], b, hsep, hpos, hb, hdisj => by
    have hposc : 0 < c.size := hpos c (by simp)
    have hd := hdisj c (by simp)
    by_cases hcb : c.addr < b.addr
    · have hcble : c.addr + c.size ≤ b.addr := by omega
      obtain ⟨c', t, heq, haddr, hsep', hpos'⟩ :=
        merge_prev_spec c b [] List.chain'_nil (by intro x hx; cases hx) hb hposc hcble
          (by intro d hd; cases hd)
      exact ⟨c', t, by simp [ms_heap_free, hcb, heq], hsep', hpos', by simp [hcb, haddr]⟩
    · have hble : b.addr + b.size ≤ c.addr := by omega
      obtain ⟨b', t, heq, haddr, hsep', hpos'⟩ :=
        coalesce_next_spec b [c] hsep hpos hb (by intro d hd; cases hd; exact hble)
      exact ⟨b', t, by simp [ms_heap_free, hcb, heq], hsep', hpos', by simp [hcb, haddr]⟩
  | c :: d :: rest, b, hsep, hpos, hb, hdisj => by
    have hposc : 0 < c.size := hpos c (by simp)
    have hposd : 0 < d.size := hpos d (by simp)
    have hdc := hdisj c (by simp)
    have hdd := hdisj d (by simp)
    have hsep_tail : Separated (d :: rest) := hsep.tail
    have hpos_tail : PosSizes (d :: rest) := by
      intro x hx; exact hpos x (List.mem_cons_of_mem _ hx)
    have hRcd : c.addr + c.size < d.addr := (List.chain'_cons.mp hsep).1
    by_cases hcb : c.addr < b.addr
    · by_cases hdb : d.addr < b.addr
      · obtain ⟨h, t, heq, hsep', hpos', hhead⟩ :=
          ms_heap_free_spec (d :: rest) b hsep_tail hpos_tail hb
            (by intro x hx; exact hdisj x (List.mem_cons_of_mem _ hx))
        have hhead' : h.addr = d.addr := by simpa [hdb] using hhead
        refine ⟨c, h :: t, by simp [ms_heap_free, hcb, hdb, heq], ?_, ?_, by simp [hcb]⟩
        · exact List.chain'_cons.mpr ⟨by omega, hsep'⟩
        · intro x hx
          rcases List.mem_cons.mp hx with rfl | hx
          · exact hposc
          · exact hpos' x hx
      · have hcble : c.addr + c.size ≤ b.addr := by omega
        have hble : b.addr + b.size ≤ d.addr := by omega
        obtain ⟨c', t, heq, haddr, hsep', hpos'⟩ :=
          merge_prev_spec c b (d :: rest) hsep_tail hpos_tail hb hposc hcble
            (by intro x hx; cases hx; exact hble)
        exact ⟨c', t, by simp [ms_heap_free, hcb, hdb, heq], hsep', hpos', by simp [hcb, haddr]⟩
    · have hble : b.addr + b.size ≤ c.addr := by omega
      obtain ⟨b', t, heq, haddr, hsep', hpos'⟩ :=
        coalesce_next_spec b (c :: d :: rest) hsep hpos hb
          (by intro x hx; cases hx; exact hble)
      exact ⟨b', t, by simp [ms_heap_free, hcb, heq], hsep', hpos', by simp [hcb, haddr]⟩


theorem heap_alloc_go_above (needed B : Nat) : ∀ (l : List FreeBlock),
    (∀ x ∈ l, B < x.addr) → ∀ x ∈ (heap_alloc_go needed l).2, B < x.addr
  | [], _, x, hx => by simp [heap_alloc_go] at hx
  | c :: rest, h, x, hx => by
    by_cases h1 : needed ≤ c.size
    · by_cases h2 : needed + MIN_BLOCK_SIZE ≤ c.size
      · simp only [heap_alloc_go, if_pos h1, if_pos h2] at hx
        rcases List.mem_cons.mp hx with rfl | hx
        · have := h c (by simp)
          simp only
          omega
        · exact h x (List.mem_cons_of_mem _ hx)
      · simp only [heap_alloc_go, if_pos h1, if_neg h2] at hx
        exact h x (List.mem_cons_of_mem _ hx)
    · simp only [heap_alloc_go, if_neg h1] at hx
      rcases List.mem_cons.mp hx with rfl | hx
      · exact h x (by simp)
      · exact heap_alloc_go_above needed B rest
          (fun y hy => h y (List.mem_cons_of_mem _ hy)) x hx


theorem heap_alloc_go_sep (needed : Nat) : ∀ (l : List FreeBlock),
    Separated l → PosSizes l →
    Separated (heap_alloc_go needed l).2 ∧ PosSizes (heap_alloc_go needed l).2
  | [], _, _ => by simp [heap_alloc_go, Separated, PosSizes]
  | c :: rest, hsep, hpos => by
    have hsep_tail : Separated rest := hsep.tail
    have hpos_tail : PosSizes rest := by
      intro x hx; exact hpos x (List.mem_cons_of_mem _ hx)
    by_cases h1 : needed ≤ c.size
    · by_cases h2 : needed + MIN_BLOCK_SIZE ≤ c.size
      · simp only [heap_alloc_go, if_pos h1, if_pos h2]
        constructor
        · refine List.chain'_cons'.mpr ⟨?_, (List.chain'_cons'.mp hsep).2⟩
          intro h hh
          have := (List.chain'_cons'.mp hsep).1 h hh
          simp only at this ⊢
          omega
        · intro x hx
          rcases List.mem_cons.mp hx with rfl | hx
          · simp only
            have : (0:Nat) < MIN_BLOCK_SIZE := by decide
            omega
          · exact hpos x (List.mem_cons_of_mem _ hx)
      · simp only [heap_alloc_go, if_pos h1, if_neg h2]
        exact ⟨hsep_tail, hpos_tail⟩
    · simp only [heap_alloc_go, if_neg h1]
      obtain ⟨hsep', hpos'⟩ := heap_alloc_go_sep needed rest hsep_tail hpos_tail
      constructor
      · refine List.chain'_cons'.mpr ⟨?_, hsep'⟩
        intro h hh
        exact heap_alloc_go_above needed _ rest (separated_all hsep) h
          (List.mem_of_mem_head? hh)
      · intro x hx
        rcases List.mem_cons.mp hx with rfl | hx
        · exact hpos x (by simp)
        · exact hpos' x hx


theorem next_visit_none_iff (g : TraceGraph) (m : Finset Nat) :
    ∀ ws : List Nat, next_visit g m ws = none ↔ ∀ q ∈ ws, q ∉ g.ids ∨ q ∈ m
  | [] => by simp [next_visit]
  | p :: ws => by
    by_cases h : p ∈ g.ids ∧ p ∉ m
    · simp only [next_visit, if_pos h]
      constructor
      · intro hc; cases hc
      · intro hall
        rcases hall p (by simp) with h1 | h1
        · exact absurd h.1 h1
        · exact absurd h1 h.2
    · simp only [next_visit, if_neg h]
      rw [next_visit_none_iff g m ws]
      constructor
      · intro hall q hq
        rcases List.mem_cons.mp hq with rfl | hq
        · by_cases hq1 : q ∈ g.ids
          · right
            by_contra hq2
            exact h ⟨hq1, hq2⟩
          · exact Or.inl hq1
        · exact hall q hq
      · intro hall q hq
        exact hall q (List.mem_cons_of_mem _ hq)


theorem next_visit_some {g : TraceGraph} {m : Finset Nat} :
    ∀ {ws ws' : List Nat} {p : Nat}, next_visit g m ws = some (p, ws') →
      p ∈ g.ids ∧ p ∉ m
  | [], _, _, h => by simp [next_visit] at h
  | q :: ws, ws', p, h => by
    by_cases hq : q ∈ g.ids ∧ q ∉ m
    · simp only [next_visit, if_pos hq, Option.some.injEq, Prod.mk.injEq] at h
      exact h.1 ▸ hq
    · simp only [next_visit, if_neg hq] at h
      exact next_visit_some h


theorem trace_work_mono (g : TraceGraph) (push : List Nat → List Nat → List Nat) :
    ∀ (fuel : Nat) (ws : List Nat) (m : Finset Nat), m ⊆ trace_work g push fuel ws m
  | 0, _, _ => Finset.Subset.refl _
  | fuel + 1, ws, m => by
    simp only [trace_work]
    cases hnv : next_visit g m ws with
    | none => exact Finset.Subset.refl _
    | some pw =>
      exact (Finset.subset_insert _ _).trans (trace_work_mono g push fuel _ _)


theorem trace_work_fuel_step (g : TraceGraph) (push : List Nat → List Nat → List Nat) :
    ∀ (fuel : Nat) (ws : List Nat) (m : Finset Nat), (g.ids \ m).card ≤ fuel →
      trace_work g push (fuel + 1) ws m = trace_work g push fuel ws m
  | 0, ws, m, hcard => by
    have hsub : ∀ q ∈ ws, q ∉ g.ids ∨ q ∈ m := by
      intro q hq
      by_cases h1 : q ∈ g.ids
      · right
        by_contra h2
        have : q ∈ g.ids \ m := Finset.mem_sdiff.mpr ⟨h1, h2⟩
        have := Finset.card_pos.mpr ⟨q, this⟩
        omega
      · exact Or.inl h1
    simp [trace_work, (next_visit_none_iff g m ws).mpr hsub]
  | fuel + 1, ws, m, hcard => by
    simp only [trace_work]
    cases hnv : next_visit g m ws with
    | none => rfl
    | some pw =>
      obtain ⟨p, ws'⟩ := pw
      obtain ⟨hp1, hp2⟩ := next_visit_some hnv
      refine trace_work_fuel_step g push fuel _ _ ?_
      have : g.ids \ insert p m = (g.ids \ m).erase p := by
        ext q
        simp only [Finset.mem_sdiff, Finset.mem_insert, Finset.mem_erase]
        tauto
      rw [this, Finset.card_erase_of_mem (Finset.mem_sdiff.mpr ⟨hp1, hp2⟩)]
      omega


theorem trace_work_fuel_ge (g : TraceGraph) (push : List Nat → List Nat → List Nat)
    (ws : List Nat) (m : Finset Nat) :
    ∀ f₁ f₂ : Nat, (g.ids \ m).card ≤ f₁ → f₁ ≤ f₂ →
      trace_work g push f₂ ws m = trace_work g push f₁ ws m := by
  intro f₁ f₂ hb hle
  induction f₂, hle using Nat.le_induction with
  | base => rfl
  | succ f₂ hle ih =>
    rw [trace_work_fuel_step g push f₂ ws m (hb.trans hle), ih]


theorem next_visit_agree {g g' : TraceGraph} {m : Finset Nat}
    (hsub : ∀ q, q ∈ g'.ids → q ∈ g.ids) :
    ∀ {ws ws' : List Nat} {p : Nat}, next_visit g m ws = some (p, ws') → p ∈ g'.ids →
      next_visit g' m ws = some (p, ws')
  | [], _, _, h, _ => by simp [next_visit] at h
  | q :: ws, ws', p, h, hp => by
    by_cases hq : q ∈ g.ids ∧ q ∉ m
    · simp only [next_visit, if_pos hq, Option.some.injEq, Prod.mk.injEq] at h
      obtain ⟨h1, h2⟩ := h
      subst h1
      subst h2
      have hq' : q ∈ g'.ids ∧ q ∉ m := ⟨hp, hq.2⟩
      simp [next_visit, hq']
    · simp only [next_visit, if_neg hq] at h
      have hq' : ¬(q ∈ g'.ids ∧ q ∉ m) := fun hc => hq ⟨hsub q hc.1, hc.2⟩
      simp only [next_visit, if_neg hq']
      exact next_visit_agree hsub h hp


theorem trace_work_restrict (g g' : TraceGraph) (push : List Nat → List Nat → List Nat)
    (M : Finset Nat)
    (hids : ∀ q, q ∈ g'.ids ↔ q ∈ g.ids ∧ q ∈ M)
    (hch : ∀ q, q ∈ g'.ids → g'.children q = g.children q) :
    ∀ (fuel : Nat) (ws : List Nat) (m : Finset Nat),
      trace_work g push fuel ws m = M → trace_work g' push fuel ws m = M
  | 0, ws, m, h => h
  | fuel + 1, ws, m, h => by
    have hsub : ∀ q, q ∈ g'.ids → q ∈ g.ids := fun q hq => ((hids q).mp hq).1
    simp only [trace_work] at h ⊢
    cases hnv : next_visit g m ws with
    | none =>
      have hnv' : next_visit g' m ws = none := by
        rw [next_visit_none_iff] at hnv ⊢
        intro q hq
        rcases hnv q hq with h1 | h1
        · exact Or.inl fun hc => h1 (hsub q hc)
        · exact Or.inr h1
      rw [hnv']
      rw [hnv] at h
      exact h
    | some pw =>
      obtain ⟨p, ws'⟩ := pw
      rw [hnv] at h
      obtain ⟨hp1, hp2⟩ := next_visit_some hnv
      have hpM : p ∈ M := by
        have := trace_work_mono g push fuel (push (g.children p) ws') (insert p m)
        exact h ▸ this (Finset.mem_insert_self p m)
      have hp' : p ∈ g'.ids := (hids p).mpr ⟨hp1, hpM⟩
      rw [next_visit_agree hsub hnv hp']
      show trace_work g' push fuel (push (g'.children p) ws') (insert p m) = M
      rw [hch p hp']
      have h' : trace_work g push fuel (push (g.children p) ws') (insert p m) = M := h
      exact trace_work_restrict g g' push M hids hch fuel _ _ h'


theorem next_visit_append (g : TraceGraph) (m : Finset Nat) :
    ∀ l₁ l₂ : List Nat, next_visit g m (l₁ ++ l₂) =
      (match next_visit g m l₁ with
       | some (q, r) => some (q, r ++ l₂)
       | none => next_visit g m l₂)
  | [], l₂ => by simp [next_visit]
  | q :: l₁, l₂ => by
    by_cases hq : q ∈ g.ids ∧ q ∉ m
    · simp [next_visit, if_pos hq]
    · simp only [List.cons_append, next_visit, if_neg hq]
      exact next_visit_append g m l₁ l₂


theorem trace_work_queue_dup (g : TraceGraph) {p : Nat} :
    ∀ (fuel : Nat) (ws₁ ws₂ : List Nat) (m : Finset Nat), (p ∈ m ∨ p ∉ g.ids) →
      trace_work g queue_push fuel (ws₁ ++ p :: ws₂) m =
        trace_work g queue_push fuel (ws₁ ++ ws₂) m
  | 0, _, _, _, _ => rfl
  | fuel + 1, ws₁, ws₂, m, hp => by
    have hskip : ¬(p ∈ g.ids ∧ p ∉ m) := by tauto
    simp only [trace_work]
    rw [next_visit_append g m ws₁ (p :: ws₂), next_visit_append g m ws₁ ws₂]
    cases hnv : next_visit g m ws₁ with
    | some qw =>
      obtain ⟨q, r⟩ := qw
      show trace_work g queue_push fuel (queue_push (g.children q) (r ++ p :: ws₂)) (insert q m) =
        trace_work g queue_push fuel (queue_push (g.children q) (r ++ ws₂)) (insert q m)
      have e1 : queue_push (g.children q) (r ++ p :: ws₂) =
          r ++ p :: (ws₂ ++ g.children q) := by
        simp [queue_push]
      have e2 : queue_push (g.children q) (r ++ ws₂) = r ++ (ws₂ ++ g.children q) := by
        simp [queue_push]
      rw [e1, e2]
      refine trace_work_queue_dup g fuel r (ws₂ ++ g.children q) _ ?_
      rcases hp with hp | hp
      · exact Or.inl (Finset.mem_insert_of_mem hp)
      · exact Or.inr hp
    | none =>
      have hred : next_visit g m (p :: ws₂) = next_visit g m ws₂ := by
        simp [next_visit, hskip]
      rw [hred]


/-- Evacuating the same root value twice is harmless: once the first
occurrence has been processed, the second hits the forwarding test and
returns at once, so the duplicated worklist computes the same closure. -/
theorem trace_work_queue_dup_root (g : TraceGraph) (fuel : Nat) (v : Nat)
    (ws₁ ws₂ : List Nat) :
    trace_work g queue_push fuel (v :: (ws₁ ++ v :: ws₂)) ∅ =
      trace_work g queue_push fuel (v :: (ws₁ ++ ws₂)) ∅ := by
  by_cases hv : v ∈ g.ids
  · cases fuel with
    | zero => rfl
    | succ fuel =>
      have hcond : v ∈ g.ids ∧ v ∉ (∅ : Finset Nat) := ⟨hv, by simp⟩
      simp only [trace_work, next_visit, if_pos hcond]
      have e1 : queue_push (g.children v) (ws₁ ++ v :: ws₂) =
          ws₁ ++ v :: (ws₂ ++ g.children v) := by simp [queue_push]
      have e2 : queue_push (g.children v) (ws₁ ++ ws₂) =
          ws₁ ++ (ws₂ ++ g.children v) := by simp [queue_push]
      rw [e1, e2]
      exact trace_work_queue_dup g fuel ws₁ (ws₂ ++ g.children v) _
        (Or.inl (Finset.mem_insert_self v ∅))
  · have h1 := trace_work_queue_dup g fuel (v :: ws₁) ws₂ (∅ : Finset Nat) (Or.inr hv)
    simpa using h1


theorem read_memset_zero (m : ByteMem) (p : Nat) :
    ∀ n i : Nat, i < n → read_byte (memset_zero m p n) (p + i) = some 0
  | 0, _, h => absurd h (Nat.not_lt_zero _)
  | n + 1, i, h => by
    by_cases hi : i = n
    · subst hi
      simp [memset_zero, write_byte, read_byte, List.find?]
    · have hlt : i < n := by omega
      have hne : ((p + n : Nat) == p + i) = false := by
        simp only [beq_eq_false_iff_ne, ne_eq]
        omega
      simp only [memset_zero, write_byte, read_byte, List.find?, hne]
      exact read_memset_zero m p n i hlt


theorem obj_graph_filter_ids {σ : Type} (objs : List (Nat × σ)) (ch : σ → List Nat)
    (M : Finset Nat) (q : Nat) :
    (q ∈ (obj_graph (objs.filter fun o => decide (o.1 ∈ M)) ch).ids ↔
      q ∈ (obj_graph objs ch).ids ∧ q ∈ M) := by
  simp only [obj_graph, List.mem_toFinset, List.mem_map, List.mem_filter,
    decide_eq_true_eq]
  constructor
  · rintro ⟨o, ⟨ho, hoM⟩, rfl⟩
    exact ⟨⟨o, ho, rfl⟩, hoM⟩
  · rintro ⟨⟨o, ho, rfl⟩, hM⟩
    exact ⟨o, ⟨ho, hM⟩, rfl⟩


theorem find?_filter_key {σ : Type} (M : Finset Nat) (q : Nat) (hq : q ∈ M) :
    ∀ objs : List (Nat × σ),
      (objs.filter fun o => decide (o.1 ∈ M)).find? (fun o => o.1 == q) =
        objs.find? (fun o => o.1 == q)
  | [] => rfl
  | o :: rest => by
    by_cases ho : o.1 = q
    · have hoM : o.1 ∈ M := ho ▸ hq
      rw [List.filter_cons, if_pos (by simpa using hoM)]
      rw [List.find?_cons_of_pos (p := fun o : Nat × σ => o.1 == q) _ (by simp [ho])]
      rw [List.find?_cons_of_pos (p := fun o : Nat × σ => o.1 == q) _ (by simp [ho])]
    · have hbeq : ¬((fun o : Nat × σ => o.1 == q) o = true) := by simp [ho]
      by_cases hoM : o.1 ∈ M
      · rw [List.filter_cons, if_pos (by simpa using hoM)]
        rw [List.find?_cons_of_neg (p := fun o : Nat × σ => o.1 == q) _ hbeq]
        rw [List.find?_cons_of_neg (p := fun o : Nat × σ => o.1 == q) _ hbeq]
        exact find?_filter_key M q hq rest
      · rw [List.filter_cons, if_neg (by simpa using hoM)]
        rw [List.find?_cons_of_neg (p := fun o : Nat × σ => o.1 == q) _ hbeq]
        exact find?_filter_key M q hq rest


theorem obj_graph_filter_children {σ : Type} (objs : List (Nat × σ)) (ch : σ → List Nat)
    (M : Finset Nat) (q : Nat)
    (hq : q ∈ (obj_graph (objs.filter fun o => decide (o.1 ∈ M)) ch).ids) :
    (obj_graph (objs.filter fun o => decide (o.1 ∈ M)) ch).children q =
      (obj_graph objs ch).children q := by
  have hqM : q ∈ M := ((obj_graph_filter_ids objs ch M q).mp hq).2
  simp only [obj_graph]
  rw [find?_filter_key M q hqM objs]


theorem trace_closure_filter {σ : Type} (objs : List (Nat × σ)) (ch : σ → List Nat)
    (push : List Nat → List Nat → List Nat) (ws : List Nat) :
    trace_closure (objs.filter fun o => decide (o.1 ∈ trace_closure objs ch push ws))
      ch push ws = trace_closure objs ch push ws := by
  set M := trace_closure objs ch push ws with hM
  set g := obj_graph objs ch with hg
  set g' := obj_graph (objs.filter fun o => decide (o.1 ∈ M)) ch with hg'
  have hids : ∀ q, q ∈ g'.ids ↔ q ∈ g.ids ∧ q ∈ M := fun q =>
    obj_graph_filter_ids objs ch M q
  have hch : ∀ q, q ∈ g'.ids → g'.children q = g.children q := fun q hq =>
    obj_graph_filter_children objs ch M q hq
  have hsub : g'.ids ⊆ g.ids := fun q hq => ((hids q).mp hq).1
  have hcard : g'.ids.card ≤ g.ids.card := Finset.card_le_card hsub
  have hbase : trace_work g push (g.ids.card + 1) ws ∅ = M := rfl
  have h1 : trace_work g' push (g.ids.card + 1) ws ∅ = M :=
    trace_work_restrict g g' push M hids hch (g.ids.card + 1) ws ∅ hbase
  have h2 : trace_work g' push (g.ids.card + 1) ws ∅ =
      trace_work g' push (g'.ids.card + 1) ws ∅ := by
    refine trace_work_fuel_ge g' push ws ∅ (g'.ids.card + 1) (g.ids.card + 1) ?_ (by omega)
    rw [Finset.sdiff_empty]
    omega
  show trace_work g' push (g'.ids.card + 1) ws ∅ = M
  rw [← h2]
  exact h1


theorem filter_mem_not_mem {σ : Type} (l : List (Nat × σ)) (M : Finset Nat) :
    ((l.filter fun o => decide (o.1 ∈ M)).filter fun o => decide (o.1 ∉ M)) = [] := by
  induction l with
  | nil => rfl
  | cons o rest ih =>
    rw [List.filter_cons]
    by_cases h : o.1 ∈ M
    · rw [if_pos (by simpa using h)]
      rw [List.filter_cons, if_neg (by simpa using h)]
      exact ih
    · rw [if_neg (by simpa using h)]
      exact ih


theorem filter_mem_mem {σ : Type} (l : List (Nat × σ)) (M : Finset Nat) :
    ((l.filter fun o => decide (o.1 ∈ M)).filter fun o => decide (o.1 ∈ M)) =
      l.filter fun o => decide (o.1 ∈ M) := by
  induction l with
  | nil => rfl
  | cons o rest ih =>
    rw [List.filter_cons]
    by_cases h : o.1 ∈ M
    · rw [if_pos (by simpa using h)]
      rw [List.filter_cons, if_pos (by simpa using h), ih]
    · rw [if_neg (by simpa using h)]
      exact ih


theorem ms_collect_idem_stats (s : MsState) :
    (ms_collect (ms_collect s)).freed_bytes = (ms_collect s).freed_bytes ∧
    (ms_collect (ms_collect s)).current_bytes = (ms_collect s).current_bytes := by
  have hobjs : (ms_collect s).objects =
      s.objects.filter fun o => decide (o.1 ∈ ms_mark_roots s) := rfl
  have hM : ms_mark_roots (ms_collect s) = ms_mark_roots s := by
    show trace_closure (ms_collect s).objects (fun o => o.children) depth_push
      (ms_root_worklist (ms_collect s)) = ms_mark_roots s
    have hws : ms_root_worklist (ms_collect s) = ms_root_worklist s := rfl
    rw [hobjs, hws]
    exact trace_closure_filter s.objects (fun o => o.children) depth_push
      (ms_root_worklist s)
  have hdead : ((ms_collect s).objects.filter
      fun o => decide (o.1 ∉ ms_mark_roots (ms_collect s))) = [] := by
    rw [hM, hobjs]
    exact filter_mem_not_mem s.objects (ms_mark_roots s)
  constructor
  · show (ms_collect s).freed_bytes +
      (((ms_collect s).objects.filter
        fun o => decide (o.1 ∉ ms_mark_roots (ms_collect s))).map fun o => o.2.size).sum =
      (ms_collect s).freed_bytes
    rw [hdead]
    simp
  · show (ms_collect s).current_bytes -
      (((ms_collect s).objects.filter
        fun o => decide (o.1 ∉ ms_mark_roots (ms_collect s))).map fun o => o.2.size).sum =
      (ms_collect s).current_bytes
    rw [hdead]
    simp


theorem copy_collect_idem_stats (t : CopyState) :
    (copy_collect (copy_collect t)).freed_bytes = (copy_collect t).freed_bytes ∧
    (copy_collect (copy_collect t)).current_bytes = (copy_collect t).current_bytes := by
  have hobjs : (copy_collect t).objects =
      t.objects.filter fun o => decide (o.1 ∈ copy_mark_roots t) := rfl
  have hM : copy_mark_roots (copy_collect t) = copy_mark_roots t := by
    show trace_closure (copy_collect t).objects (fun o => o.children) queue_push
      ((copy_collect t).roots.filterMap (lookup_slot (copy_collect t).slot_mem)) =
      copy_mark_roots t
    have hws : (copy_collect t).roots.filterMap (lookup_slot (copy_collect t).slot_mem) =
        t.roots.filterMap (lookup_slot t.slot_mem) := rfl
    rw [hobjs, hws]
    exact trace_closure_filter t.objects (fun o => o.children) queue_push
      (t.roots.filterMap (lookup_slot t.slot_mem))
  have hlive : ((copy_collect t).objects.filter
      fun o => decide (o.1 ∈ copy_mark_roots (copy_collect t))) = (copy_collect t).objects := by
    rw [hM, hobjs]
    exact filter_mem_mem t.objects (copy_mark_roots t)
  have hafter : ((((copy_collect t).objects.filter
      fun o => decide (o.1 ∈ copy_mark_roots (copy_collect t))).map
        fun o => copyHeaderSize + o.2.size).sum) = (copy_collect t).current_bytes := by
    rw [hlive]
    rfl
  constructor
  · show (if ((((copy_collect t).objects.filter
        fun o => decide (o.1 ∈ copy_mark_roots (copy_collect t))).map
          fun o => copyHeaderSize + o.2.size).sum) < (copy_collect t).current_bytes then
        (copy_collect t).freed_bytes + ((copy_collect t).current_bytes -
          ((((copy_collect t).objects.filter
            fun o => decide (o.1 ∈ copy_mark_roots (copy_collect t))).map
              fun o => copyHeaderSize + o.2.size).sum))
      else (copy_collect t).freed_bytes) = (copy_collect t).freed_bytes
    rw [hafter]
    simp
  · show ((((copy_collect t).objects.filter
        fun o => decide (o.1 ∈ copy_mark_roots (copy_collect t))).map
          fun o => copyHeaderSize + o.2.size).sum) = (copy_collect t).current_bytes
    exact hafter


theorem align_size_ge (n : Nat) : n ≤ align_size n := by
  unfold align_size
  omega


theorem ms_finish_alloc_fst (s : MsState) (blk : FreeBlock) (fl' : List FreeBlock) (n : Nat) :
    (ms_finish_alloc s blk fl' n).1 = blk.addr + gcHeaderSize := by
  simp only [ms_finish_alloc]
  split <;> rfl


theorem ms_finish_alloc_mem (s : MsState) (blk : FreeBlock) (fl' : List FreeBlock) (n : Nat) :
    (ms_finish_alloc s blk fl' n).2.mem = memset_zero s.mem (blk.addr + gcHeaderSize) n := by
  simp only [ms_finish_alloc]
  split <;> rfl


theorem ms_finish_alloc_triggered (s : MsState) (blk : FreeBlock) (fl' : List FreeBlock)
    (n : Nat) (h : s.threshold < s.bytes_allocated + n) :
    (ms_finish_alloc s blk fl' n).2.threshold =
      min (3 * (ms_finish_alloc s blk fl' n).2.bytes_allocated / 2)
        (ms_finish_alloc s blk fl' n).2.heap_size ∧
    (ms_finish_alloc s blk fl' n).2.bytes_allocated = s.bytes_allocated + n := by
  simp only [ms_finish_alloc]
  rw [if_pos (show ({ s with
      free_list := fl'
      objects := (blk.addr + gcHeaderSize, ⟨n, blk.size, []⟩) :: s.objects
      bytes_allocated := s.bytes_allocated + n
      current_bytes := s.current_bytes + n
      mem := memset_zero s.mem (blk.addr + gcHeaderSize) n } : MsState).threshold <
    ({ s with
      free_list := fl'
      objects := (blk.addr + gcHeaderSize, ⟨n, blk.size, []⟩) :: s.objects
      bytes_allocated := s.bytes_allocated + n
      current_bytes := s.current_bytes + n
      mem := memset_zero s.mem (blk.addr + gcHeaderSize) n } : MsState).bytes_allocated
    from h)]
  exact ⟨rfl, rfl⟩


/-- The two success paths of `ms_allocate`: the block comes either from
the initial free list or from the one rebuilt by the collection, and the
pre-allocation collection leaves the counters the allocator reads
unchanged. -/
theorem ms_allocate_ok_shape (s : MsState) (n p : Nat) (s' : MsState)
    (hok : ms_allocate s n = .ok (p, s')) :
    ∃ (x : MsState) (blk : FreeBlock) (fl1 : List FreeBlock),
      (p, s') = ms_finish_alloc x blk fl1 n ∧
      x.bytes_allocated = s.bytes_allocated ∧ x.threshold = s.threshold ∧
      x.heap_size = s.heap_size ∧ x.mem = s.mem := by
  rcases h1 : ms_heap_alloc s.free_list (gcHeaderSize + n) with ⟨ob, fl1⟩
  cases ob with
  | some blk =>
    have heq : ms_allocate s n = .ok (ms_finish_alloc s blk fl1 n) := by
      simp only [ms_allocate]
      rw [h1]
    rw [heq] at hok
    exact ⟨s, blk, fl1, (Except.ok.inj hok).symm, rfl, rfl, rfl, rfl⟩
  | none =>
    rcases h2 : ms_heap_alloc (ms_collect s).free_list (gcHeaderSize + n) with ⟨ob2, fl2⟩
    cases ob2 with
    | some blk =>
      have heq : ms_allocate s n = .ok (ms_finish_alloc (ms_collect s) blk fl2 n) := by
        simp only [ms_allocate]
        rw [h1, h2]
      rw [heq] at hok
      exact ⟨ms_collect s, blk, fl2, (Except.ok.inj hok).symm, rfl, rfl, rfl, rfl⟩
    | none =>
      have heq : ms_allocate s n = .error () := by
        simp only [ms_allocate]
        rw [h1, h2]
      rw [heq] at hok
      cases hok


/-!
Claim theorems.
-/

/-- C10: for the mark-sweep and generational backends, `set-threshold(b)`
stores `max b 1024`: a subsequent `get-threshold` returns `b` when
`b ≥ 1024` and `1024` when `b < 1024`, so the collection threshold never
drops below 1024 bytes through this operation. -/
theorem C10_set_threshold_floor (s : MsState) (t : GenState) (b : Nat) :
    ms_get_threshold (ms_set_threshold s b) = max b 1024 ∧
    gen_get_threshold (gen_set_threshold t b) = max b 1024 := by
  constructor
  · show (if b < 1024 then 1024 else b) = max b 1024
    split <;> omega
  · show (if b < 1024 then 1024 else b) = max b 1024
    split <;> omega


/-- C9: for the copying and generational backends, `mark-pointer` is the
identity whenever no collection is in progress, and in every backend and
every state `mark-pointer(null)` returns null. -/
theorem C9_mark_ptr_identity :
    (∀ (ctx : CopyCtx) (p : Option Nat), copy_mark_ptr false ctx p = .ok (p, ctx)) ∧
    (∀ (ctx : MinorCtx) (p : Option Nat), gen_mark_ptr false false ctx p = (p, ctx)) ∧
    (∀ s : MsState, ms_mark_ptr s none = none) ∧
    (∀ (c : Bool) (ctx : CopyCtx), copy_mark_ptr c ctx none = .ok (none, ctx)) ∧
    (∀ (m1 m2 : Bool) (ctx : MinorCtx), gen_mark_ptr m1 m2 ctx none = (none, ctx)) := by
  refine ⟨fun ctx p => rfl, fun ctx p => ?_, fun s => rfl, fun c ctx => ?_, fun m1 m2 ctx => ?_⟩
  · cases p <;> rfl
  · cases c <;> rfl
  · rfl


/-- C1 counterexample: owner 32 is itself a nursery object (not
tenured), child 72 lies in the nursery, and `gen_write_barrier` does
create a remembered-set entry for slot 1000 — the barrier ignores its
owner argument, so the claimed "iff owner is tenured" fails. -/
theorem C1_counterexample :
    (genBarrierState.nursery.find? fun o => o.1 == 32).isSome = true ∧
    genBarrierState.remembered = [] ∧
    (gen_write_barrier genBarrierState (some 32) (some 1000) (some 72)).remembered =
      [1000] := by decide


/-- C1 (amended): `gen_write_barrier(owner, slot, child)` does not
depend on `owner` at all; it records `slot` in the remembered set iff
`slot` and `child` are non-null, `child` lies in the active nursery, and
`slot` was not already recorded — membership afterwards is as stated
below. -/
theorem C1_write_barrier_spec (s : GenState) (o1 o2 slot child : Option Nat) :
    gen_write_barrier s o1 slot child = gen_write_barrier s o2 slot child ∧
    (∀ x : Nat, x ∈ (gen_write_barrier s o1 slot child).remembered ↔
      (x ∈ s.remembered ∨ (slot = some x ∧ ∃ c, child = some c ∧
        (s.nursery.find? fun o => o.1 == c).isSome = true))) := by
  constructor
  · cases slot <;> cases child <;> rfl
  · intro x
    cases slot with
    | none => simp [gen_write_barrier]
    | some sl =>
      cases child with
      | none => simp [gen_write_barrier]
      | some c =>
        show x ∈ (if (s.nursery.find? fun o => o.1 == c).isSome = true then
            add_remembered_slot s sl else s).remembered ↔ _
        by_cases hn : (s.nursery.find? fun o => o.1 == c).isSome = true
        · rw [if_pos hn]
          unfold add_remembered_slot
          by_cases hin : sl ∈ s.remembered
          · rw [if_pos hin]
            constructor
            · exact fun hx => Or.inl hx
            · rintro (hx | ⟨hsx, -⟩)
              · exact hx
              · obtain rfl : sl = x := Option.some.inj hsx
                exact hin
          · rw [if_neg hin]
            show x ∈ s.remembered ++ [sl] ↔ _
            rw [List.mem_append, List.mem_singleton]
            constructor
            · rintro (hx | rfl)
              · exact Or.inl hx
              · exact Or.inr ⟨rfl, c, rfl, hn⟩
            · rintro (hx | ⟨hsx, -⟩)
              · exact Or.inl hx
              · obtain rfl : sl = x := Option.some.inj hsx
                exact Or.inr rfl
        · rw [if_neg hn]
          constructor
          · exact fun hx => Or.inl hx
          · rintro (hx | ⟨-, c', hc', hfind⟩)
            · exact hx
            · obtain rfl : c = c' := Option.some.inj hc'
              exact absurd hfind hn


/-- C2 counterexample: evacuating the age-1, trace-less object 32
promotes it (`objects_promoted` increments, the forwarding pointer is
set to the tenured copy) yet pushes nothing on the promotion work
stack, so the claim's unconditional "pushed on the promotion work
stack" fails. -/
theorem C2_counterexample :
    (copy_young_object genPromoCtx (some 32)).2.promoted = genPromoCtx.promoted + 1 ∧
    (copy_young_object genPromoCtx (some 32)).2.old_bytes = 8 ∧
    (copy_young_object genPromoCtx (some 32)).2.promo_stack = [] := by decide


/-- C2 (amended): `copy_young_object` behaves as the claim states,
except that the promoted object's tenured pointer is pushed on the
promotion work stack only when a trace callback is installed: null maps
to null, pointers outside from-space return unchanged, a set forwarding
pointer is returned as-is, and an unforwarded from-space object is
promoted exactly when `tracing_promoted` is set, or its age plus 1
reaches `PROMOTE_AGE`, or the nursery to-space cannot hold it —
otherwise it is copied into the to-space with its age incremented. -/
theorem C2_copy_young_object_spec (ctx : MinorCtx) (a : Nat) (hdr : NurseryObj)
    (hfind : ctx.from_objs.find? (fun o => o.1 == a) = some (a, hdr))
    (hfwd : hdr.forward = none) :
    (copy_young_object ctx none = (none, ctx)) ∧
    (∀ b, ctx.from_objs.find? (fun o => o.1 == b) = none →
      copy_young_object ctx (some b) = (some b, ctx)) ∧
    (∀ b h f, ctx.from_objs.find? (fun o => o.1 == b) = some (b, h) →
      h.forward = some f → copy_young_object ctx (some b) = (some f, ctx)) ∧
    (if ctx.tracing_promoted ∨ PROMOTE_AGE ≤ hdr.age + 1 ∨
        ctx.cap < ctx.to_used + (nurseryHeaderSize + hdr.size) then
      copy_young_object ctx (some a) = promote_object ctx a hdr ∧
      (promote_object ctx a hdr).1 = some (ctx.fresh + oldHeaderSize) ∧
      (promote_object ctx a hdr).2.old_objects =
        (ctx.fresh + oldHeaderSize, ⟨hdr.size, hdr.trace⟩) :: ctx.old_objects ∧
      (promote_object ctx a hdr).2.old_bytes = ctx.old_bytes + hdr.size ∧
      (promote_object ctx a hdr).2.from_objs =
        set_forward_nursery ctx.from_objs a (ctx.fresh + oldHeaderSize) ∧
      (promote_object ctx a hdr).2.promoted = ctx.promoted + 1 ∧
      (promote_object ctx a hdr).2.copied = ctx.copied ∧
      (promote_object ctx a hdr).2.to_objs = ctx.to_objs ∧
      (promote_object ctx a hdr).2.promo_stack =
        (if hdr.trace.isSome then (ctx.fresh + oldHeaderSize) :: ctx.promo_stack
         else ctx.promo_stack)
    else
      copy_young_object ctx (some a) =
        (some (ctx.fresh + nurseryHeaderSize),
          { ctx with
            to_objs := ctx.to_objs ++
              [(ctx.fresh + nurseryHeaderSize, ⟨hdr.size, hdr.trace, none, hdr.age + 1⟩)]
            to_used := ctx.to_used + (nurseryHeaderSize + hdr.size)
            from_objs := set_forward_nursery ctx.from_objs a (ctx.fresh + nurseryHeaderSize)
            copied := ctx.copied + 1
            fresh := ctx.fresh + nurseryHeaderSize + hdr.size })) := by
  refine ⟨rfl, ?_, ?_, ?_⟩
  · intro b hb
    show (match ctx.from_objs.find? (fun o => o.1 == b) with
      | none => (some b, ctx)
      | some o => _) = (some b, ctx)
    rw [hb]
  · intro b h f hb hf
    show (match ctx.from_objs.find? (fun o => o.1 == b) with
      | none => (some b, ctx)
      | some o =>
        match o.2.forward with
        | some f => (some f, ctx)
        | none => _) = (some f, ctx)
    rw [hb]
    show (match h.forward with | some f => (some f, ctx) | none => _) = (some f, ctx)
    rw [hf]
  · have hstep : copy_young_object ctx (some a) =
        (if ctx.tracing_promoted ∨ PROMOTE_AGE ≤ hdr.age + 1 then
           promote_object ctx a hdr
         else if ctx.cap < ctx.to_used + (nurseryHeaderSize + hdr.size) then
           promote_object ctx a hdr
         else
           (some (ctx.fresh + nurseryHeaderSize),
             { ctx with
               to_objs := ctx.to_objs ++
                 [(ctx.fresh + nurseryHeaderSize, ⟨hdr.size, hdr.trace, none, hdr.age + 1⟩)]
               to_used := ctx.to_used + (nurseryHeaderSize + hdr.size)
               from_objs := set_forward_nursery ctx.from_objs a
                 (ctx.fresh + nurseryHeaderSize)
               copied := ctx.copied + 1
               fresh := ctx.fresh + nurseryHeaderSize + hdr.size })) := by
      show (match ctx.from_objs.find? (fun o => o.1 == a) with
        | none => (some a, ctx)
        | some o =>
          match o.2.forward with
          | some f => (some f, ctx)
          | none => _) = _
      rw [hfind]
      show (match hdr.forward with | some f => (some f, ctx) | none => _) = _
      rw [hfwd]
    by_cases h1 : ctx.tracing_promoted ∨ PROMOTE_AGE ≤ hdr.age + 1
    · rw [if_pos (by tauto)]
      rw [hstep, if_pos h1]
      exact ⟨rfl, rfl, rfl, rfl, rfl, rfl, rfl, rfl, rfl⟩
    · by_cases h2 : ctx.cap < ctx.to_used + (nurseryHeaderSize + hdr.size)
      · rw [if_pos (by tauto)]
        rw [hstep, if_neg h1, if_pos h2]
        exact ⟨rfl, rfl, rfl, rfl, rfl, rfl, rfl, rfl, rfl⟩
      · rw [if_neg (by tauto)]
        rw [hstep, if_neg h1, if_neg h2]


/-- C2 witness: the copy branch of the amended characterization at a
concrete context. -/
theorem C2_witness :
    (copy_young_object genCopyCtx (some 32)).2.copied = genCopyCtx.copied + 1 ∧
    (copy_young_object genCopyCtx (some 32)).1 = some 72 := by
  have h := (C2_copy_young_object_spec genCopyCtx 32 ⟨8, some [], none, 0⟩
    (by decide) (by decide)).2.2.2
  rw [if_neg (by decide)] at h
  rw [h]
  exact ⟨rfl, rfl⟩


/-- C3 counterexample: on the copying backend, registering the already
registered slot 5 a second time appends it again — the root set changes,
so add-root is not idempotent there. -/
theorem C3_counterexample :
    copyRootState.roots = [5] ∧ (copy_add_root copyRootState 5).roots = [5, 5] := by decide


/-- C3 (amended): add-root is idempotent for the mark-sweep and
generational backends (a registered slot leaves the state unchanged);
the copying backend appends the slot unconditionally, so duplicates
accumulate in its root array — but evacuating a duplicated root value is
harmless, the traced closure is that of the deduplicated worklist. -/
theorem C3_add_root_spec :
    (∀ (s : MsState) (a : Nat), a ∈ s.roots → ms_add_root s a = s) ∧
    (∀ (s : GenState) (a : Nat), a ∈ s.roots → gen_add_root s a = s) ∧
    (∀ (s : CopyState) (a : Nat), (copy_add_root s a).roots = s.roots ++ [a]) ∧
    (∀ (g : TraceGraph) (fuel v : Nat) (ws₁ ws₂ : List Nat),
      trace_work g queue_push fuel (v :: (ws₁ ++ v :: ws₂)) ∅ =
        trace_work g queue_push fuel (v :: (ws₁ ++ ws₂)) ∅) := by
  refine ⟨fun s a ha => ?_, fun s a ha => ?_, fun s a => rfl, trace_work_queue_dup_root⟩
  · unfold ms_add_root
    rw [if_pos ha]
  · unfold gen_add_root
    rw [if_pos ha]


/-- C3 witness: idempotence applied at concrete registered slots. -/
theorem C3_witness :
    ms_add_root msRootState 7 = msRootState ∧
    gen_add_root genRootedState 1000 = genRootedState := by
  exact ⟨C3_add_root_spec.1 msRootState 7 (by decide),
    C3_add_root_spec.2.1 genRootedState 1000 (by decide)⟩


/-- C6: in the free-list backends (the mark-sweep heap and the
generational tenured region share `ms_heap_free` = `old_heap_free` and
the same allocator), freeing a block disjoint from the current free
list re-inserts it in address order and coalesces with both contiguous
neighbours, and first-fit allocation with block splitting preserves it:
in both cases a separated free list (no two adjacent free blocks) stays
separated, so the invariant holds after every collection. -/
theorem C6_no_adjacent_free_blocks (fl : List FreeBlock) (b : FreeBlock) (size : Nat)
    (hsep : Separated fl) (hpos : PosSizes fl) (hb : 0 < b.size)
    (hdisj : DisjointFrom fl b) :
    (Separated (ms_heap_free fl b) ∧ PosSizes (ms_heap_free fl b)) ∧
    (Separated (old_heap_free fl b) ∧ PosSizes (old_heap_free fl b)) ∧
    (Separated (ms_heap_alloc fl size).2 ∧ PosSizes (ms_heap_alloc fl size).2) := by
  obtain ⟨h, t, heq, hsep', hpos', -⟩ := ms_heap_free_spec fl b hsep hpos hb hdisj
  obtain ⟨hsa, hpa⟩ := heap_alloc_go_sep (max (align_size size) MIN_BLOCK_SIZE) fl hsep hpos
  have heqo : old_heap_free fl b = h :: t := heq
  exact ⟨⟨heq ▸ hsep', heq ▸ hpos'⟩, ⟨heqo ▸ hsep', heqo ▸ hpos'⟩, hsa, hpa⟩


/-- C6 witness: freeing the block `[32, 64)` between the free blocks
`[0, 32)` and `[64, 80)` coalesces all three into one, and a first-fit
allocation splits without creating adjacency. -/
theorem C6_witness :
    Separated flWitness ∧
    ms_heap_free flWitness ⟨32, 32⟩ = [⟨0, 80⟩] ∧
    Separated (ms_heap_free flWitness ⟨32, 32⟩) ∧
    Separated (ms_heap_alloc flWitness 10).2 := by
  refine ⟨by decide, by decide, ?_, ?_⟩
  · exact (C6_no_adjacent_free_blocks flWitness ⟨32, 32⟩ 10 (by decide) (by decide)
      (by decide) (by decide)).1.1
  · exact (C6_no_adjacent_free_blocks flWitness ⟨32, 32⟩ 10 (by decide) (by decide)
      (by decide) (by decide)).2.2.1


/-- C5: in every backend, allocation either returns a pointer (the
payload address, past the object header; for copying and generational
the fresh object is registered in the heap on return) or fails with
OutOfMemory, and the failure is reported only after the
collection-and-retry sequence — one collection for mark-sweep and
copying, minor then major for generational — still cannot satisfy the
request; no other error is ever handed back to the mutator. -/
theorem C5_allocate_total :
    (∀ (s : MsState) (n : Nat),
      (∃ p s', ms_allocate s n = .ok (p, s') ∧ gcHeaderSize ≤ p) ∨
      (ms_allocate s n = .error () ∧
        (ms_heap_alloc s.free_list (gcHeaderSize + n)).1 = none ∧
        (ms_heap_alloc (ms_collect s).free_list (gcHeaderSize + n)).1 = none)) ∧
    (∀ (s : CopyState) (n : Nat),
      (∃ p s', copy_allocate s n = .ok (p, s') ∧ copyHeaderSize ≤ p ∧
        (p, ⟨align_size n, []⟩) ∈ s'.objects) ∨
      (copy_allocate s n = .error () ∧
        s.cap < s.used + (copyHeaderSize + align_size n) ∧
        (copy_collect s).cap < (copy_collect s).used + (copyHeaderSize + align_size n))) ∧
    (∀ (s : GenState) (n : Nat),
      (∃ p s', gen_allocate s n = .ok (p, s') ∧ nurseryHeaderSize ≤ p ∧
        (p, ⟨align_size n, none, none, 0⟩) ∈ s'.nursery) ∨
      (gen_allocate s n = .error () ∧
        s.nursery_cap < s.nursery_used + (nurseryHeaderSize + align_size n) ∧
        (minor_collect s).nursery_cap <
          (minor_collect s).nursery_used + (nurseryHeaderSize + align_size n) ∧
        (major_collect (minor_collect s)).nursery_cap <
          (major_collect (minor_collect s)).nursery_used +
            (nurseryHeaderSize + align_size n))) := by
  refine ⟨fun s n => ?_, fun s n => ?_, fun s n => ?_⟩
  · rcases h1 : ms_heap_alloc s.free_list (gcHeaderSize + n) with ⟨ob, fl1⟩
    cases ob with
    | some blk =>
      left
      refine ⟨(ms_finish_alloc s blk fl1 n).1, (ms_finish_alloc s blk fl1 n).2, ?_, ?_⟩
      · simp only [ms_allocate]
        rw [h1]
      · rw [ms_finish_alloc_fst]
        omega
    | none =>
      rcases h2 : ms_heap_alloc (ms_collect s).free_list (gcHeaderSize + n) with ⟨ob2, fl2⟩
      cases ob2 with
      | some blk =>
        left
        refine ⟨(ms_finish_alloc (ms_collect s) blk fl2 n).1,
          (ms_finish_alloc (ms_collect s) blk fl2 n).2, ?_, ?_⟩
        · simp only [ms_allocate]
          rw [h1, h2]
        · rw [ms_finish_alloc_fst]
          omega
      | none =>
        right
        refine ⟨?_, ?_, ?_⟩
        · simp only [ms_allocate]
          rw [h1, h2]
        · rfl
        · rfl
  · by_cases h1 : s.cap < s.used + (copyHeaderSize + align_size n)
    · by_cases h2 : (copy_collect s).cap <
          (copy_collect s).used + (copyHeaderSize + align_size n)
      · right
        refine ⟨?_, h1, h2⟩
        simp only [copy_allocate]
        rw [if_pos h1, if_pos h2]
      · left
        refine ⟨(copy_bump_alloc (copy_collect s) n).1,
          (copy_bump_alloc (copy_collect s) n).2, ?_, ?_, ?_⟩
        · simp only [copy_allocate]
          rw [if_pos h1, if_neg h2]
        · show copyHeaderSize ≤ (copy_collect s).fresh + copyHeaderSize
          omega
        · exact List.mem_append_right _ (List.mem_singleton_self _)
    · left
      refine ⟨(copy_bump_alloc s n).1, (copy_bump_alloc s n).2, ?_, ?_, ?_⟩
      · simp only [copy_allocate]
        rw [if_neg h1]
      · show copyHeaderSize ≤ s.fresh + copyHeaderSize
        omega
      · exact List.mem_append_right _ (List.mem_singleton_self _)
  · by_cases h1 : s.nursery_cap < s.nursery_used + (nurseryHeaderSize + align_size n)
    · by_cases h2 : (minor_collect s).nursery_cap <
          (minor_collect s).nursery_used + (nurseryHeaderSize + align_size n)
      · by_cases h3 : (major_collect (minor_collect s)).nursery_cap <
            (major_collect (minor_collect s)).nursery_used +
              (nurseryHeaderSize + align_size n)
        · right
          refine ⟨?_, h1, h2, h3⟩
          simp only [gen_allocate]
          rw [if_pos h1, if_pos h2, if_pos h3]
        · left
          refine ⟨(gen_bump_alloc (major_collect (minor_collect s)) n).1,
            (gen_bump_alloc (major_collect (minor_collect s)) n).2, ?_, ?_, ?_⟩
          · simp only [gen_allocate]
            rw [if_pos h1, if_pos h2, if_neg h3]
          · show nurseryHeaderSize ≤
              (major_collect (minor_collect s)).fresh + nurseryHeaderSize
            omega
          · exact List.mem_append_right _ (List.mem_singleton_self _)
      · left
        refine ⟨(gen_bump_alloc (minor_collect s) n).1,
          (gen_bump_alloc (minor_collect s) n).2, ?_, ?_, ?_⟩
        · simp only [gen_allocate]
          rw [if_pos h1, if_neg h2]
        · show nurseryHeaderSize ≤ (minor_collect s).fresh + nurseryHeaderSize
          omega
        · exact List.mem_append_right _ (List.mem_singleton_self _)
    · left
      refine ⟨(gen_bump_alloc s n).1, (gen_bump_alloc s n).2, ?_, ?_, ?_⟩
      · simp only [gen_allocate]
        rw [if_neg h1]
      · show nurseryHeaderSize ≤ s.fresh + nurseryHeaderSize
        omega
      · exact List.mem_append_right _ (List.mem_singleton_self _)


/-- C7 (amended): after a threshold-triggered collection, the mark-sweep
backend sets its next threshold to exactly `1.5 ×` the bytes-allocated
counter clamped to the heap size — with no additive constant; the
generational old generation sets its major threshold after each sweep to
`2 ×` the surviving tenured bytes plus the constant 1024. -/
theorem C7_threshold_growth :
    (∀ (s : MsState) (n p : Nat) (s' : MsState),
      ms_allocate s n = .ok (p, s') → s.threshold < s.bytes_allocated + n →
        s'.threshold = min (3 * s'.bytes_allocated / 2) s'.heap_size ∧
        s'.bytes_allocated = s.bytes_allocated + n) ∧
    (∀ s : GenState, (sweep_old s).old_threshold = 2 * (sweep_old s).old_bytes + 1024) := by
  constructor
  · intro s n p s' hok htr
    obtain ⟨x, blk, fl1, hps, hbytes, hthr, hheap, -⟩ := ms_allocate_ok_shape s n p s' hok
    have hs' : s' = (ms_finish_alloc x blk fl1 n).2 := congrArg Prod.snd hps
    have htrx : x.threshold < x.bytes_allocated + n := by
      rw [hbytes, hthr]
      exact htr
    obtain ⟨h1, h2⟩ := ms_finish_alloc_triggered x blk fl1 n htrx
    rw [hs']
    exact ⟨h1, by rw [h2, hbytes]⟩
  · intro s
    rfl


/-- C7 counterexample: no positive constant can be added to the clamped
`1.5 ×` formula — at a concrete triggered allocation the new mark-sweep
threshold equals the clamped product exactly. -/
theorem C7_counterexample :
    ¬ ∃ c : Nat, 0 < c ∧ ∀ (s : MsState) (n p : Nat) (s' : MsState),
      ms_allocate s n = .ok (p, s') → s.threshold < s.bytes_allocated + n →
        s'.threshold = min (3 * s'.bytes_allocated / 2) s'.heap_size + c := by
  rintro ⟨c, hc, h⟩
  have h1 := h msTriggerState 8 56 msTriggerPost (by decide) (by decide)
  have h2 : msTriggerPost.threshold = 1542 := by decide
  have h3 : min (3 * msTriggerPost.bytes_allocated / 2) msTriggerPost.heap_size = 1542 := by
    decide
  rw [h2, h3] at h1
  omega


/-- C7 witness: the amended growth law applied to a concrete triggered
allocation. -/
theorem C7_witness :
    msTriggerPost.threshold =
      min (3 * msTriggerPost.bytes_allocated / 2) msTriggerPost.heap_size ∧
    msTriggerPost.bytes_allocated = msTriggerState.bytes_allocated + 8 :=
  C7_threshold_growth.1 msTriggerState 8 56 msTriggerPost (by decide) (by decide)


/-- C8: in every backend, the payload returned by `allocate(n)` is
zero-initialized: every byte `p[i]` with `i < n` reads back zero
(`memset` covers the requested size for mark-sweep and the aligned size,
which is at least the requested one, for copying and generational). -/
theorem C8_allocation_zeroed :
    (∀ (s : MsState) (n p i : Nat) (s' : MsState),
      ms_allocate s n = .ok (p, s') → i < n → read_byte s'.mem (p + i) = some 0) ∧
    (∀ (s : CopyState) (n p i : Nat) (s' : CopyState),
      copy_allocate s n = .ok (p, s') → i < n → read_byte s'.mem (p + i) = some 0) ∧
    (∀ (s : GenState) (n p i : Nat) (s' : GenState),
      gen_allocate s n = .ok (p, s') → i < n → read_byte s'.mem (p + i) = some 0) := by
  refine ⟨fun s n p i s' hok hi => ?_, fun s n p i s' hok hi => ?_,
    fun s n p i s' hok hi => ?_⟩
  · obtain ⟨x, blk, fl1, hps, -, -, -, hmem⟩ := ms_allocate_ok_shape s n p s' hok
    have hp1 : p = (ms_finish_alloc x blk fl1 n).1 := congrArg Prod.fst hps
    have hp : p = blk.addr + gcHeaderSize := by
      rw [hp1, ms_finish_alloc_fst]
    have hs1 : s' = (ms_finish_alloc x blk fl1 n).2 := congrArg Prod.snd hps
    have hm : s'.mem = memset_zero s.mem (blk.addr + gcHeaderSize) n := by
      rw [hs1, ms_finish_alloc_mem, hmem]
    rw [hm, hp]
    exact read_memset_zero s.mem (blk.addr + gcHeaderSize) n i hi
  · have hi' : i < align_size n := lt_of_lt_of_le hi (align_size_ge n)
    by_cases h1 : s.cap < s.used + (copyHeaderSize + align_size n)
    · by_cases h2 : (copy_collect s).cap <
          (copy_collect s).used + (copyHeaderSize + align_size n)
      · have : copy_allocate s n = .error () := by
          simp only [copy_allocate]
          rw [if_pos h1, if_pos h2]
        rw [this] at hok
        cases hok
      · have heq : copy_allocate s n = .ok (copy_bump_alloc (copy_collect s) n) := by
          simp only [copy_allocate]
          rw [if_pos h1, if_neg h2]
        rw [heq] at hok
        obtain ⟨hp, hs'⟩ := Prod.mk.injEq .. ▸ (Except.ok.inj hok)
        rw [← hs', ← hp]
        show read_byte (memset_zero (copy_collect s).mem
          ((copy_collect s).fresh + copyHeaderSize) (align_size n))
          ((copy_collect s).fresh + copyHeaderSize + i) = some 0
        exact read_memset_zero _ _ _ i hi'
    · have heq : copy_allocate s n = .ok (copy_bump_alloc s n) := by
        simp only [copy_allocate]
        rw [if_neg h1]
      rw [heq] at hok
      obtain ⟨hp, hs'⟩ := Prod.mk.injEq .. ▸ (Except.ok.inj hok)
      rw [← hs', ← hp]
      show read_byte (memset_zero s.mem (s.fresh + copyHeaderSize) (align_size n))
        (s.fresh + copyHeaderSize + i) = some 0
      exact read_memset_zero _ _ _ i hi'
  · have hi' : i < align_size n := lt_of_lt_of_le hi (align_size_ge n)
    by_cases h1 : s.nursery_cap < s.nursery_used + (nurseryHeaderSize + align_size n)
    · by_cases h2 : (minor_collect s).nursery_cap <
          (minor_collect s).nursery_used + (nurseryHeaderSize + align_size n)
      · by_cases h3 : (major_collect (minor_collect s)).nursery_cap <
            (major_collect (minor_collect s)).nursery_used +
              (nurseryHeaderSize + align_size n)
        · have : gen_allocate s n = .error () := by
            simp only [gen_allocate]
            rw [if_pos h1, if_pos h2, if_pos h3]
          rw [this] at hok
          cases hok
        · have heq : gen_allocate s n =
              .ok (gen_bump_alloc (major_collect (minor_collect s)) n) := by
            simp only [gen_allocate]
            rw [if_pos h1, if_pos h2, if_neg h3]
          rw [heq] at hok
          obtain ⟨hp, hs'⟩ := Prod.mk.injEq .. ▸ (Except.ok.inj hok)
          rw [← hs', ← hp]
          show read_byte (memset_zero (major_collect (minor_collect s)).mem
            ((major_collect (minor_collect s)).fresh + nurseryHeaderSize) (align_size n))
            ((major_collect (minor_collect s)).fresh + nurseryHeaderSize + i) = some 0
          exact read_memset_zero _ _ _ i hi'
      · have heq : gen_allocate s n = .ok (gen_bump_alloc (minor_collect s) n) := by
          simp only [gen_allocate]
          rw [if_pos h1, if_neg h2]
        rw [heq] at hok
        obtain ⟨hp, hs'⟩ := Prod.mk.injEq .. ▸ (Except.ok.inj hok)
        rw [← hs', ← hp]
        show read_byte (memset_zero (minor_collect s).mem
          ((minor_collect s).fresh + nurseryHeaderSize) (align_size n))
          ((minor_collect s).fresh + nurseryHeaderSize + i) = some 0
        exact read_memset_zero _ _ _ i hi'
    · have heq : gen_allocate s n = .ok (gen_bump_alloc s n) := by
        simp only [gen_allocate]
        rw [if_neg h1]
      rw [heq] at hok
      obtain ⟨hp, hs'⟩ := Prod.mk.injEq .. ▸ (Except.ok.inj hok)
      rw [← hs', ← hp]
      show read_byte (memset_zero s.mem (s.fresh + nurseryHeaderSize) (align_size n))
        (s.fresh + nurseryHeaderSize + i) = some 0
      exact read_memset_zero _ _ _ i hi'


/-- C8 witness: the zeroing contract applied to fresh allocations on all
three backends. -/
theorem C8_witness :
    read_byte msTriggerPost.mem 59 = some 0 ∧
    (∀ s', copy_allocate copyInitState 8 = .ok (32, s') →
      read_byte s'.mem 35 = some 0) ∧
    (∀ s', gen_allocate genInitState 8 = .ok (32, s') →
      read_byte s'.mem 35 = some 0) := by
  refine ⟨?_, fun s' h => ?_, fun s' h => ?_⟩
  · exact C8_allocation_zeroed.1 msTriggerState 8 56 3 msTriggerPost (by decide) (by decide)
  · exact C8_allocation_zeroed.2.1 copyInitState 8 32 3 s' h (by decide)
  · exact C8_allocation_zeroed.2.2 genInitState 8 32 3 s' h (by decide)


/-- C4 counterexample: on the generational backend, starting from the
reachable state with one rooted 8-byte nursery object, the second of two
back-to-back `collect()` calls promotes the now age-1 survivor, so
`current_bytes` drops from 40 (nursery header + payload) to 8 (tenured
payload) across the second call — the claimed conjunction fails. -/
theorem C4_counterexample :
    ¬ ((gen_collect (gen_collect genRootedState)).freed_bytes =
          (gen_collect genRootedState).freed_bytes ∧
       (gen_collect (gen_collect genRootedState)).current_bytes =
          (gen_collect genRootedState).current_bytes) := by decide


/-- C4 (amended): for the mark-sweep and copying backends, a second
`collect()` immediately after a first frees no additional bytes and
leaves `current_bytes` unchanged; the generational backend does not
satisfy this, because survivors whose age reaches `PROMOTE_AGE` at the
second minor collection are promoted, removing their nursery header
bytes from `current_bytes`. -/
theorem C4_collect_idempotent (s : MsState) (t : CopyState) :
    (ms_collect (ms_collect s)).freed_bytes = (ms_collect s).freed_bytes ∧
    (ms_collect (ms_collect s)).current_bytes = (ms_collect s).current_bytes ∧
    (copy_collect (copy_collect t)).freed_bytes = (copy_collect t).freed_bytes ∧
    (copy_collect (copy_collect t)).current_bytes = (copy_collect t).current_bytes :=
  ⟨(ms_collect_idem_stats s).1, (ms_collect_idem_stats s).2,
    (copy_collect_idem_stats t).1, (copy_collect_idem_stats t).2⟩


end Minimalisp
